import Mathlib

/-!
# Verification of the AvaTax offline-content subsystem

Shallow embedding of the offline tax-content synchronization and lookup code
of the AvaTax Python SDK variant under study (`client.py` and
`client_resiliency.py`), together with theorems settling the frozen claims
about it.

Python dynamic values that the embedded code inspects are modelled by `PyVal`;
Python exceptions by `PyErr`.  Stateful methods on the client object become
explicit state-passing functions over a `Session` record; the filesystem is a
`Disk` association list from path to file contents; the remote collaborator is
a `Collab` record of response functions.
-/

set_option linter.unusedVariables false

namespace Avatax

/-- Characters of a natural number in decimal, via a structural fuel
(`fuel = n + 1` always suffices). -/
def natCharsAux : Nat → Nat → List Char
  | 0, _ => []
  | fuel + 1, n =>
      if n < 10 then [Nat.digitChar n]
      else natCharsAux fuel (n / 10) ++ [Nat.digitChar (n % 10)]

/-- Decimal digit characters of a natural number. -/
def natChars (n : Nat) : List Char := natCharsAux (n + 1) n

/-- Decimal characters of an integer, as Python prints one. -/
def intChars (n : Int) : List Char :=
  if n < 0 then '-' :: natChars n.natAbs else natChars n.toNat

/-- Python `str()` of an integer. -/
def pyIntStr (n : Int) : String := String.mk (intChars n)

/-- Boolean string-prefix test (Python `str.startswith`). -/
def strStartsWith (s pre : String) : Bool := pre.toList.isPrefixOf s.toList

/-- Boolean string-suffix test (Python `str.endswith`). -/
def strEndsWith (s suf : String) : Bool := suf.toList.isSuffixOf s.toList

/-- Worker for `pySplitOnChar`, accumulating the current piece reversed. -/
def splitOnCharAux (sep : Char) : List Char → List Char → List String
  | [], acc => [String.mk acc.reverse]
  | c :: rest, acc =>
      if c = sep then String.mk acc.reverse :: splitOnCharAux sep rest []
      else splitOnCharAux sep rest (c :: acc)

/-- Python `str.split(sep)` for a one-character separator: `""` yields
`[""]`, and every separator occurrence starts a new piece. -/
def pySplitOnChar (sep : Char) (s : String) : List String :=
  splitOnCharAux sep s.toList []

/-- Worker for `pySplitlines`. -/
def pySplitlinesCh : List Char → List Char → List String
  | [], [] => []
  | [], acc => [String.mk acc.reverse]
  | '\n' :: rest, acc => String.mk acc.reverse :: pySplitlinesCh rest []
  | c :: rest, acc => pySplitlinesCh rest (c :: acc)

/-- Python values, as far as the embedded code inspects them:
`None`, text, and integers. -/
inductive PyVal where
  | none
  | str (s : String)
  | int (n : Int)
deriving DecidableEq, Repr

/-- Python exceptions raised by the embedded code.  The spec's taxonomy maps
`InvalidArgument` to `valueError`, `NotFound` to `indexError`, and
`UpstreamUnavailable` to `exception "Failed to fetch zip rate data from
AvaTax API"`.  `typeError` and `importError` fall outside the taxonomy. -/
inductive PyErr where
  | valueError (msg : String)
  | indexError (msg : String)
  | typeError
  | importError
  | exception (msg : String)
deriving DecidableEq, Repr

/-- Python truthiness for the modelled values: `None` is falsy, a string is
truthy iff non-empty, an int is truthy iff nonzero. -/
def PyVal.truthy : PyVal → Bool
  | .none => false
  | .str s => s ≠ ""
  | .int n => n ≠ 0

/-- Modelled from the spec: `_str_version.str_type` is not under `src/`; per
the spec ("must be text or absent", error message "string or none type
object") the `isinstance(i, str_type)` test accepts exactly text and `None`. -/
def PyVal.isStrOrNone : PyVal → Bool
  | .none => true
  | .str _ => true
  | .int _ => false

/-- Python `str()` of the modelled values. -/
def PyVal.pystr : PyVal → String
  | .none => "None"
  | .str s => s
  | .int n => pyIntStr n

/-- `posixpath.join` restricted to two arguments, as used by
`os.path.join(path, file_name)` on the POSIX branch of `_path_joiner`. -/
def pyOsJoin (p b : String) : String :=
  if strStartsWith b "/" then b
  else if p = "" || strEndsWith p "/" then p ++ b
  else p ++ "/" ++ b

/-- `AvataxClient._path_joiner` (identical in `client_resiliency.Mixin`):
filename is `str(loc_id) + '_' + file_name` when `loc_id` is truthy, else
`today_date + '_' + file_name`; joined with `os.path.join` when
`self._linux`, else by literal backslash concatenation.  `todayTag` injects
`datetime.datetime.today().strftime('%Y%m%d')`.  A non-string directory
raises `TypeError` inside the path operations. -/
def path_joiner (linux : Bool) (todayTag : String) (path : PyVal)
    (file_name : String) (loc_id : PyVal) : Except PyErr String :=
  let fn := if loc_id.truthy then loc_id.pystr ++ "_" ++ file_name
            else todayTag ++ "_" ++ file_name
  match path with
  | .str p => .ok (if linux then pyOsJoin p fn else p ++ "\\" ++ fn)
  | _ => .error .typeError

/-- One line of `csv.reader(..., delimiter=',')` on quote-free content: a
blank line yields the empty row `[]`, any other line splits on commas. -/
def pyCsvRow (line : String) : List String :=
  if line = "" then [] else pySplitOnChar ',' line

/-- Python `str.splitlines` restricted to `'\n'` terminators: split on
newlines, dropping the trailing empty piece produced by a final newline. -/
def pySplitlines (s : String) : List String :=
  pySplitlinesCh s.toList []

/-- `csv.reader(content.splitlines(), delimiter=',')` materialised as a list
of rows, as in the ZIP-rate download loop. -/
def pyCsvRows (content : String) : List (List String) :=
  (pySplitlines content).map pyCsvRow

/-- A Python `dict` assignment `d[k] = v` on a string-keyed dict represented
as an association list in insertion order: an existing key keeps its
position and gets the new value, a fresh key is appended. -/
def pyDictSet (d : List (String × List String)) (k : String) (v : List String) :
    List (String × List String) :=
  if d.any (fun kv => kv.1 = k) then
    d.map (fun kv => if kv.1 = k then (k, v) else kv)
  else d ++ [(k, v)]

/-- The loop body of `_zipct_helper`: `for z in zip_list: code = z.pop(0);
zip_dict[code] = z`.  `pop(0)` on an empty row raises `IndexError`, modelled
by `Option.none`. -/
def zipctGo : List (List String) → List (String × List String) →
    Option (List (String × List String))
  | [], d => some d
  | [] :: _, _ => none
  | (code :: rest) :: more, d => zipctGo more (pyDictSet d code rest)

/-- `AvataxClient._zipct_helper` (identical in `client_resiliency.Mixin`):
turn the CSV row list into a dict keyed by the popped first field; `none`
models the unhandled `IndexError` from `pop(0)` on an empty row. -/
def zipct_helper (zip_list : List (List String)) :
    Option (List (String × List String)) :=
  zipctGo zip_list []

/-- Worker for the ZIP-rate retry loop of `sync_offline_content`:
`while len(zipct_list) < 100: download; parse; count += 1; if count > 10:
raise`.  The loop counter is carried both as the running `count` and as the
structural countdown `remaining = 10 - count`, so that `remaining = 0` holds
exactly when the incremented count would exceed the cap
(`count + 1 > 10`).  `resp k` is the body of the `k`-th download call
(0-based). -/
def zipLoopAux (resp : Nat → String) (remaining count : Nat)
    (zipct_list : List (List String)) : Option (List (List String)) × Nat :=
  if zipct_list.length < 100 then
    let rows := pyCsvRows (resp count)
    match remaining with
    | 0 => (Option.none, count + 1)
    | r + 1 => zipLoopAux resp r (count + 1) rows
  else (some zipct_list, count)

/-- The ZIP-rate retry loop, entered with `zipct_list = []` and `count = 0`.
Returns the accepted row list (or `none` for the raised exception, a cap of
10 on `count`) together with the total number of download invocations
performed. -/
def zipLoop (resp : Nat → String) : Option (List (List String)) × Nat :=
  zipLoopAux resp 10 0 []

/-- Python `int()` on the strings the code feeds it: an optional leading
minus sign followed by at least one decimal digit; anything else raises
`ValueError`. -/
def pyInt (s : String) : Except PyErr Int :=
  match s.toList with
  | '-' :: ds =>
      if ds ≠ [] ∧ ds.all Char.isDigit then
        .ok (-(ds.foldl (fun a c => a * 10 + (c.toNat - 48)) 0 : Nat))
      else .error (.valueError "invalid literal for int()")
  | ds =>
      if ds ≠ [] ∧ ds.all Char.isDigit then
        .ok ((ds.foldl (fun a c => a * 10 + (c.toNat - 48)) 0 : Nat))
      else .error (.valueError "invalid literal for int()")

/-- Date-tag extraction for one file in `_get_most_recent_file`:
`int(f.split('/')[-1].split('_')[-2])`.  A filename with fewer than two
underscore-delimited parts makes `[-2]` raise `IndexError`. -/
def pyFileDate (f : String) : Except PyErr Int :=
  let name := (pySplitOnChar '/' f).getLastD ""
  match (pySplitOnChar '_' name).reverse with
  | _ :: d :: _ => pyInt d
  | _ => .error (.indexError "list index out of range")

/-- The accumulation loop of `_get_most_recent_file`, building
`files_by_date`; the first failing `int()`/index raises out. -/
def filesByDate : List String → Except PyErr (List Int)
  | [] => .ok []
  | f :: fs =>
      match pyFileDate f with
      | .error e => .error e
      | .ok d =>
          match filesByDate fs with
          | .error e => .error e
          | .ok rest => .ok (d :: rest)

/-- Python `max(list)`: `ValueError` on an empty sequence, else the maximum
value (ties keep the value, the caller's `.index` picks the first position). -/
def pyMax (l : List Int) : Option Int :=
  match l with
  | [] => Option.none
  | x :: xs => some (xs.foldl max x)

/-- `AvataxClient._get_most_recent_file` (`client.py` variant): build the
date list, take `max`, find its first index with `list.index`, and return
the file at that index. -/
def get_most_recent_file (all_files : List String) : Except PyErr String :=
  match filesByDate all_files with
  | .error e => .error e
  | .ok files_by_date =>
      match pyMax files_by_date with
      | Option.none => .error (.valueError "max() arg is an empty sequence")
      | some d =>
          match files_by_date.findIdx? (fun x => x = d) with
          | Option.none => .error (.valueError "x not in list")
          | some idx =>
              match all_files[idx]? with
              | some f => .ok f
              | Option.none => .error (.indexError "list index out of range")


/-! ## JSON documents

Model of the JSON documents the client persists, together with the relevant
behaviour of the Python `json` standard-library collaborator: `json_dumps`
models `json.dumps`/`json.dump` (default separators, numbers restricted to
integers, strings with the common escape set), `json_loads` models
`json.loads`/`json.load` on such documents.  The development culminates in
`json_loads_dumps`: the write-then-read round trip is lossless. -/


inductive Json where
  | null
  | bool (b : Bool)
  | num (n : Int)
  | str (s : String)
  | arr (xs : List Json)
  | obj (fs : List (String × Json))

def escChar (c : Char) : List Char :=
  if c = '"' then ['\\', '"']
  else if c = '\\' then ['\\', '\\']
  else if c = '\n' then ['\\', 'n']
  else if c = '\t' then ['\\', 't']
  else if c = '\r' then ['\\', 'r']
  else [c]

def escList (cs : List Char) : List Char :=
  cs.flatMap escChar

def dumpsMember (k : String) (v : List Char) : List Char :=
  '"' :: (escList k.toList ++ ['"', ':', ' '] ++ v)

mutual
def dumpsV : Json → List Char
  | .num n => intChars n
  | .str s => '"' :: (escList s.toList ++ ['"'])
  | .arr [] => ['[', ']']
  | .arr (x :: xs) => '[' :: (dumpsV x ++ dumpsL xs ++ [']'])
  | .obj [] => ['{', '}']
  | .obj ((k, v) :: fs) => '{' :: (dumpsMember k (dumpsV v) ++ dumpsO fs ++ ['}'])
  | .bool true => 't' :: 'r' :: 'u' :: 'e' :: []
  | .bool false => 'f' :: 'a' :: 'l' :: 's' :: 'e' :: []
  | .null => 'n' :: 'u' :: 'l' :: 'l' :: []

def dumpsL : List Json → List Char
  | [] => []
  | x :: xs => ',' :: ' ' :: (dumpsV x ++ dumpsL xs)

def dumpsO : List (String × Json) → List Char
  | [] => []
  | (k, v) :: fs => ',' :: ' ' :: (dumpsMember k (dumpsV v) ++ dumpsO fs)
end

def json_dumps (j : Json) : String := String.mk (dumpsV j)

-- parser ------------------------------------------------------------------

def unescChar (c : Char) : Option Char :=
  if c = '"' then some '"'
  else if c = '\\' then some '\\'
  else if c = 'n' then some '\n'
  else if c = 't' then some '\t'
  else if c = 'r' then some '\r'
  else Option.none

def pStrChars : List Char → Option (List Char × List Char)
  | [] => Option.none
  | c :: rest =>
      if c = '\\' then
        match rest with
        | [] => Option.none
        | d :: rest' =>
            match unescChar d with
            | some u => (pStrChars rest').map (fun p => (u :: p.1, p.2))
            | Option.none => Option.none
      else if c = '"' then some ([], rest)
      else (pStrChars rest).map (fun p => (c :: p.1, p.2))

def pLit : List Char → List Char → Option (List Char)
  | [], cs => some cs
  | _ :: _, [] => Option.none
  | l :: ls, c :: cs => if c = l then pLit ls cs else Option.none

def pDigits : List Char → (List Char × List Char)
  | [] => ([], [])
  | c :: rest =>
      if c.isDigit then
        let p := pDigits rest
        (c :: p.1, p.2)
      else ([], c :: rest)

def digitsToNat (ds : List Char) : Nat :=
  ds.foldl (fun a c => a * 10 + (c.toNat - 48)) 0

def pNum (cs : List Char) : Option (Int × List Char) :=
  match cs with
  | [] => Option.none
  | c :: rest =>
      if c = '-' then
        match pDigits rest with
        | ([], _) => Option.none
        | (ds, rest') => some (-(digitsToNat ds : Int), rest')
      else
        match pDigits (c :: rest) with
        | ([], _) => Option.none
        | (ds, rest') => some ((digitsToNat ds : Int), rest')

mutual
def pVal : Nat → List Char → Option (Json × List Char)
  | 0, _ => Option.none
  | _ + 1, [] => Option.none
  | fuel + 1, c :: rest =>
      if c = 'n' then (pLit ['u', 'l', 'l'] rest).map (fun r => (Json.null, r))
      else if c = 't' then (pLit ['r', 'u', 'e'] rest).map (fun r => (Json.bool true, r))
      else if c = 'f' then (pLit ['a', 'l', 's', 'e'] rest).map (fun r => (Json.bool false, r))
      else if c = '"' then
        (pStrChars rest).map (fun p => (Json.str (String.mk p.1), p.2))
      else if c = '[' then
        if rest.head? = some ']' then some (Json.arr [], rest.tail)
        else
          match pVal fuel rest with
          | some (x, rest') => (pListTail fuel rest').map (fun p => (Json.arr (x :: p.1), p.2))
          | Option.none => Option.none
      else if c = '{' then
        if rest.head? = some '}' then some (Json.obj [], rest.tail)
        else
          match pMember fuel rest with
          | some (kv, rest') => (pObjTail fuel rest').map (fun p => (Json.obj (kv :: p.1), p.2))
          | Option.none => Option.none
      else (pNum (c :: rest)).map (fun p => (Json.num p.1, p.2))

def pMember : Nat → List Char → Option ((String × Json) × List Char)
  | 0, _ => Option.none
  | _ + 1, [] => Option.none
  | fuel + 1, c :: rest =>
      if c = '"' then
        match pStrChars rest with
        | some (ks, ':' :: ' ' :: rest') =>
            (pVal fuel rest').map (fun p => ((String.mk ks, p.1), p.2))
        | _ => Option.none
      else Option.none

def pListTail : Nat → List Char → Option (List Json × List Char)
  | 0, _ => Option.none
  | _ + 1, ']' :: rest => some ([], rest)
  | fuel + 1, ',' :: ' ' :: rest =>
      match pVal fuel rest with
      | some (x, rest') => (pListTail fuel rest').map (fun p => (x :: p.1, p.2))
      | Option.none => Option.none
  | _ + 1, _ => Option.none

def pObjTail : Nat → List Char → Option (List (String × Json) × List Char)
  | 0, _ => Option.none
  | _ + 1, '}' :: rest => some ([], rest)
  | fuel + 1, ',' :: ' ' :: rest =>
      match pMember fuel rest with
      | some (kv, rest') => (pObjTail fuel rest').map (fun p => (kv :: p.1, p.2))
      | Option.none => Option.none
  | _ + 1, _ => Option.none
end

def json_loads (s : String) : Option Json :=
  match pVal s.length s.toList with
  | some (j, []) => some j
  | _ => Option.none

-- lemmas ------------------------------------------------------------------

def noDigit (cs : List Char) : Prop :=
  ∀ c, cs.head? = some c → c.isDigit = false

theorem noDigit_nil : noDigit [] := by intro c h; simp at h

theorem noDigit_cons {c : Char} {cs : List Char} (h : c.isDigit = false) :
    noDigit (c :: cs) := by
  intro d hd
  simp only [List.head?_cons, Option.some.injEq] at hd
  subst hd
  exact h

theorem digitChar_isDigit {d : Nat} (h : d < 10) : (Nat.digitChar d).isDigit = true := by
  interval_cases d <;> decide

theorem digitChar_toNat {d : Nat} (h : d < 10) : (Nat.digitChar d).toNat = 48 + d := by
  interval_cases d <;> decide

theorem natCharsAux_all_digit :
    ∀ fuel n, n < fuel → (natCharsAux fuel n).all Char.isDigit = true := by
  intro fuel
  induction fuel with
  | zero => intro n h; omega
  | succ fuel ih =>
      intro n h
      rw [natCharsAux]
      by_cases h10 : n < 10
      · simp [h10, digitChar_isDigit h10]
      · have hd : n / 10 < fuel := by omega
        simp [h10, List.all_append, ih _ hd, digitChar_isDigit (Nat.mod_lt n (by omega))]

theorem natCharsAux_ne_nil :
    ∀ fuel n, n < fuel → natCharsAux fuel n ≠ [] := by
  intro fuel n h
  cases fuel with
  | zero => omega
  | succ fuel =>
      rw [natCharsAux]
      by_cases h10 : n < 10 <;> simp [h10]

theorem digitsToNat_append (l : List Char) (c : Char) :
    digitsToNat (l ++ [c]) = digitsToNat l * 10 + (c.toNat - 48) := by
  simp [digitsToNat, List.foldl_append]

theorem natCharsAux_roundtrip :
    ∀ fuel n, n < fuel → digitsToNat (natCharsAux fuel n) = n := by
  intro fuel
  induction fuel with
  | zero => intro n h; omega
  | succ fuel ih =>
      intro n h
      rw [natCharsAux]
      by_cases h10 : n < 10
      · simp [h10, digitsToNat, digitChar_toNat h10]
      · have hd : n / 10 < fuel := by omega
        rw [if_neg h10, digitsToNat_append, ih _ hd,
            digitChar_toNat (Nat.mod_lt n (by omega))]
        omega

theorem natChars_all_digit (n : Nat) : (natChars n).all Char.isDigit = true :=
  natCharsAux_all_digit (n + 1) n (by omega)

theorem natChars_ne_nil (n : Nat) : natChars n ≠ [] :=
  natCharsAux_ne_nil (n + 1) n (by omega)

theorem natChars_roundtrip (n : Nat) : digitsToNat (natChars n) = n :=
  natCharsAux_roundtrip (n + 1) n (by omega)

theorem pDigits_exact {ds rest : List Char} (hds : ds.all Char.isDigit = true)
    (hrest : noDigit rest) : pDigits (ds ++ rest) = (ds, rest) := by
  induction ds with
  | nil =>
      simp only [List.nil_append]
      cases rest with
      | nil => rfl
      | cons c cs =>
          have := hrest c (by simp)
          rw [pDigits]
          simp [this]
  | cons d ds ih =>
      simp only [List.all_cons, Bool.and_eq_true] at hds
      rw [List.cons_append, pDigits]
      simp [hds.1, ih hds.2]

theorem pNum_intChars (n : Int) (rest : List Char) (hrest : noDigit rest) :
    pNum (intChars n ++ rest) = some (n, rest) := by
  by_cases hneg : n < 0
  · obtain ⟨c, cs, hch⟩ := List.exists_cons_of_ne_nil (natChars_ne_nil n.natAbs)
    have hval : (digitsToNat (c :: cs) : Int) = -n := by
      rw [← hch, natChars_roundtrip]; omega
    rw [intChars, if_pos hneg, hch, List.cons_append, List.cons_append, pNum]
    simp only [if_pos rfl]
    rw [← List.cons_append, ← hch, pDigits_exact (natChars_all_digit _) hrest, hch]
    simp only []
    rw [hval]
    simp [neg_neg]
  · obtain ⟨c, cs, hch⟩ := List.exists_cons_of_ne_nil (natChars_ne_nil n.toNat)
    have hall := natChars_all_digit n.toNat
    rw [hch] at hall
    simp only [List.all_cons, Bool.and_eq_true] at hall
    have hcminus : ¬ c = '-' := by
      intro hc
      rw [hc] at hall
      exact absurd hall.1 (by decide)
    have hval : (digitsToNat (c :: cs) : Int) = n := by
      rw [← hch, natChars_roundtrip]; omega
    rw [intChars, if_neg hneg, hch, List.cons_append, pNum]
    simp only [if_neg hcminus]
    rw [← List.cons_append, ← hch, pDigits_exact (natChars_all_digit _) hrest, hch]
    simp only []
    rw [hval]

theorem pLit_exact : ∀ (lit cs : List Char), pLit lit (lit ++ cs) = some cs := by
  intro lit
  induction lit with
  | nil => intro cs; rfl
  | cons l ls ih =>
      intro cs
      rw [List.cons_append, pLit]
      simp [ih]

theorem pStrChars_esc :
    ∀ (cs rest : List Char), pStrChars (escList cs ++ '"' :: rest) = some (cs, rest) := by
  intro cs
  induction cs with
  | nil =>
      intro rest
      rw [escList]
      simp only [List.flatMap_nil, List.nil_append]
      rw [pStrChars.eq_def]
      simp
  | cons c cs ih =>
      intro rest
      have hstep : escList (c :: cs) = escChar c ++ escList cs := by
        simp [escList]
      rw [hstep, List.append_assoc]
      by_cases h1 : c = '"'
      · subst h1
        rw [escChar]
        simp only [if_pos rfl, List.cons_append]
        rw [pStrChars.eq_def]
        simp [unescChar, ih]
      · by_cases h2 : c = '\\'
        · subst h2
          rw [escChar]
          simp only [if_neg (by decide : ¬ ('\\' : Char) = '"'), if_pos rfl, List.cons_append]
          rw [pStrChars.eq_def]
          simp [unescChar, ih]
        · by_cases h3 : c = '\n'
          · subst h3
            rw [escChar]
            simp only [if_neg (by decide : ¬ ('\n' : Char) = '"'),
              if_neg (by decide : ¬ ('\n' : Char) = '\\'), if_pos rfl, List.cons_append]
            rw [pStrChars.eq_def]
            simp [unescChar, ih]
          · by_cases h4 : c = '\t'
            · subst h4
              rw [escChar]
              simp only [if_neg (by decide : ¬ ('\t' : Char) = '"'),
                if_neg (by decide : ¬ ('\t' : Char) = '\\'),
                if_neg (by decide : ¬ ('\t' : Char) = '\n'), if_pos rfl, List.cons_append]
              rw [pStrChars.eq_def]
              simp [unescChar, ih]
            · by_cases h5 : c = '\r'
              · subst h5
                rw [escChar]
                simp only [if_neg (by decide : ¬ ('\r' : Char) = '"'),
                  if_neg (by decide : ¬ ('\r' : Char) = '\\'),
                  if_neg (by decide : ¬ ('\r' : Char) = '\n'),
                  if_neg (by decide : ¬ ('\r' : Char) = '\t'), if_pos rfl, List.cons_append]
                rw [pStrChars.eq_def]
                simp [unescChar, ih]
              · rw [escChar]
                simp only [if_neg h1, if_neg h2, if_neg h3, if_neg h4, if_neg h5]
                rw [List.cons_append, List.nil_append]
                rw [pStrChars.eq_def]
                simp only [h1, h2, if_false, if_neg]
                simp [ih]

theorem pVal_cons (fuel : Nat) (c : Char) (l : List Char) :
    pVal (fuel + 1) (c :: l) =
      if c = 'n' then (pLit ['u', 'l', 'l'] l).map (fun r => (Json.null, r))
      else if c = 't' then (pLit ['r', 'u', 'e'] l).map (fun r => (Json.bool true, r))
      else if c = 'f' then (pLit ['a', 'l', 's', 'e'] l).map (fun r => (Json.bool false, r))
      else if c = '"' then
        (pStrChars l).map (fun p => (Json.str (String.mk p.1), p.2))
      else if c = '[' then
        if l.head? = some ']' then some (Json.arr [], l.tail)
        else
          match pVal fuel l with
          | some (x, rest') => (pListTail fuel rest').map (fun p => (Json.arr (x :: p.1), p.2))
          | Option.none => Option.none
      else if c = '{' then
        if l.head? = some '}' then some (Json.obj [], l.tail)
        else
          match pMember fuel l with
          | some (kv, rest') => (pObjTail fuel rest').map (fun p => (Json.obj (kv :: p.1), p.2))
          | Option.none => Option.none
      else (pNum (c :: l)).map (fun p => (Json.num p.1, p.2)) := rfl

theorem pMember_cons (fuel : Nat) (c : Char) (l : List Char) :
    pMember (fuel + 1) (c :: l) =
      if c = '"' then
        match pStrChars l with
        | some (ks, ':' :: ' ' :: rest') =>
            (pVal fuel rest').map (fun p => ((String.mk ks, p.1), p.2))
        | _ => Option.none
      else Option.none := rfl

theorem pListTail_close (fuel : Nat) (l : List Char) :
    pListTail (fuel + 1) (']' :: l) = some ([], l) := rfl

theorem pListTail_comma (fuel : Nat) (l : List Char) :
    pListTail (fuel + 1) (',' :: ' ' :: l) =
      match pVal fuel l with
      | some (x, rest') => (pListTail fuel rest').map (fun p => (x :: p.1, p.2))
      | Option.none => Option.none := rfl

theorem pObjTail_close (fuel : Nat) (l : List Char) :
    pObjTail (fuel + 1) ('}' :: l) = some ([], l) := rfl

theorem pObjTail_comma (fuel : Nat) (l : List Char) :
    pObjTail (fuel + 1) (',' :: ' ' :: l) =
      match pMember fuel l with
      | some (kv, rest') => (pObjTail fuel rest').map (fun p => (kv :: p.1, p.2))
      | Option.none => Option.none := rfl


theorem dumpsV_head (j : Json) :
    ∃ c l, dumpsV j = c :: l ∧
      (c = 'n' ∨ c = 't' ∨ c = 'f' ∨ c = '"' ∨ c = '[' ∨ c = '{' ∨ c = '-' ∨ c.isDigit = true) := by
  cases j with
  | null => exact ⟨'n', _, rfl, by tauto⟩
  | bool b => cases b
              · exact ⟨'f', _, rfl, by tauto⟩
              · exact ⟨'t', _, rfl, by tauto⟩
  | num n =>
      by_cases h : n < 0
      · refine ⟨'-', natChars n.natAbs, ?_, by tauto⟩
        rw [dumpsV, intChars, if_pos h]
      · obtain ⟨c, cs, hch⟩ := List.exists_cons_of_ne_nil (natChars_ne_nil n.toNat)
        have hall := natChars_all_digit n.toNat
        rw [hch] at hall
        simp only [List.all_cons, Bool.and_eq_true] at hall
        refine ⟨c, cs, ?_, by tauto⟩
        rw [dumpsV, intChars, if_neg h, hch]
  | str s => exact ⟨'"', _, rfl, by tauto⟩
  | arr xs => cases xs
              · exact ⟨'[', _, rfl, by tauto⟩
              · exact ⟨'[', _, rfl, by tauto⟩
  | obj fs => match fs with
              | [] => exact ⟨'{', _, rfl, by tauto⟩
              | (k, v) :: fs => exact ⟨'{', _, rfl, by tauto⟩

theorem dumpsV_ne_nil (j : Json) : dumpsV j ≠ [] := by
  obtain ⟨c, l, h, -⟩ := dumpsV_head j
  rw [h]
  simp

theorem dumpsV_length_pos (j : Json) : 0 < (dumpsV j).length := by
  cases h : dumpsV j with
  | nil => exact absurd h (dumpsV_ne_nil j)
  | cons c l => simp

theorem noDigit_L (xs : List Json) (rest : List Char) :
    noDigit (dumpsL xs ++ ']' :: rest) := by
  cases xs with
  | nil => rw [dumpsL]; simpa using noDigit_cons (by decide)
  | cons x xs => rw [dumpsL]; simpa using noDigit_cons (by decide)

theorem noDigit_O (fs : List (String × Json)) (rest : List Char) :
    noDigit (dumpsO fs ++ '}' :: rest) := by
  match fs with
  | [] => rw [dumpsO]; simpa using noDigit_cons (by decide)
  | (k, v) :: fs => rw [dumpsO]; simpa using noDigit_cons (by decide)

theorem digit_ne (c : Char) (h : c.isDigit = true) :
    c ≠ '}' ∧ c ≠ ']' ∧ c ≠ '{' ∧ c ≠ '[' ∧ c ≠ '"' ∧ c ≠ 'f' ∧ c ≠ 't' ∧ c ≠ 'n' := by
  have k : ∀ d : Char, d.isDigit = false → c ≠ d := by
    intro d hd hc
    subst hc
    rw [h] at hd
    cases hd
  exact ⟨k _ (by decide), k _ (by decide), k _ (by decide), k _ (by decide),
    k _ (by decide), k _ (by decide), k _ (by decide), k _ (by decide)⟩

theorem parse_dumps_all : ∀ fuel : Nat,
    (∀ (j : Json) (rest : List Char),
        (dumpsV j).length + rest.length ≤ fuel → noDigit rest →
        pVal fuel (dumpsV j ++ rest) = some (j, rest)) ∧
    (∀ (k : String) (v : Json) (rest : List Char),
        (dumpsMember k (dumpsV v)).length + rest.length ≤ fuel → noDigit rest →
        pMember fuel (dumpsMember k (dumpsV v) ++ rest) = some ((k, v), rest)) ∧
    (∀ (xs : List Json) (rest : List Char),
        (dumpsL xs).length + 1 + rest.length ≤ fuel →
        pListTail fuel (dumpsL xs ++ ']' :: rest) = some (xs, rest)) ∧
    (∀ (fs : List (String × Json)) (rest : List Char),
        (dumpsO fs).length + 1 + rest.length ≤ fuel →
        pObjTail fuel (dumpsO fs ++ '}' :: rest) = some (fs, rest)) := by
  intro fuel
  induction fuel with
  | zero =>
      refine ⟨?_, ?_, ?_, ?_⟩
      · intro j rest hlen _
        have := dumpsV_length_pos j
        omega
      · intro k v rest hlen _
        rw [dumpsMember] at hlen
        simp [List.length_cons] at hlen
      · intro xs rest hlen
        omega
      · intro fs rest hlen
        omega
  | succ fuel ih =>
      obtain ⟨ihV, ihM, ihL, ihO⟩ := ih
      have hV : ∀ (j : Json) (rest : List Char),
          (dumpsV j).length + rest.length ≤ fuel + 1 → noDigit rest →
          pVal (fuel + 1) (dumpsV j ++ rest) = some (j, rest) := by
        intro j rest hlen hrest
        cases j with
        | null =>
            show pVal (fuel + 1) ('n' :: (['u', 'l', 'l'] ++ rest)) = _
            rw [pVal_cons, if_pos rfl, pLit_exact]
            rfl
        | bool b =>
            cases b
            · show pVal (fuel + 1) ('f' :: (['a', 'l', 's', 'e'] ++ rest)) = _
              rw [pVal_cons, if_neg (by decide), if_neg (by decide), if_pos rfl, pLit_exact]
              rfl
            · show pVal (fuel + 1) ('t' :: (['r', 'u', 'e'] ++ rest)) = _
              rw [pVal_cons, if_neg (by decide), if_pos rfl, pLit_exact]
              rfl
        | num n =>
            have hex : ∃ c l, intChars n = c :: l ∧ (c = '-' ∨ c.isDigit = true) := by
              by_cases hneg : n < 0
              · exact ⟨'-', _, by rw [intChars, if_pos hneg], Or.inl rfl⟩
              · obtain ⟨c, cs, h⟩ := List.exists_cons_of_ne_nil (natChars_ne_nil n.toNat)
                have hall := natChars_all_digit n.toNat
                rw [h] at hall
                simp only [List.all_cons, Bool.and_eq_true] at hall
                exact ⟨c, cs, by rw [intChars, if_neg hneg, h], Or.inr hall.1⟩
            obtain ⟨c, l, hch, hc⟩ := hex
            rw [show dumpsV (Json.num n) = intChars n from rfl, hch, List.cons_append, pVal_cons]
            have hnum : (pNum (c :: (l ++ rest))).map (fun p => (Json.num p.1, p.2)) =
                some (Json.num n, rest) := by
              rw [← List.cons_append, ← hch, pNum_intChars n rest hrest]
              rfl
            rcases hc with h | h
            · subst h
              rw [if_neg (by decide), if_neg (by decide), if_neg (by decide),
                  if_neg (by decide), if_neg (by decide), if_neg (by decide)]
              exact hnum
            · obtain ⟨-, -, hoc, hob, hq, hf, ht, hn⟩ := digit_ne c h
              rw [if_neg hn, if_neg ht, if_neg hf, if_neg hq, if_neg hob, if_neg hoc]
              exact hnum
        | str s =>
            show pVal (fuel + 1) ('"' :: ((escList s.toList ++ ['"']) ++ rest)) = _
            rw [pVal_cons, if_neg (by decide), if_neg (by decide), if_neg (by decide),
                if_pos rfl]
            have hn : (escList s.toList ++ ['"']) ++ rest = escList s.toList ++ '"' :: rest := by
              simp
            rw [hn, pStrChars_esc]
            rfl
        | arr xs =>
            cases xs with
            | nil =>
                show pVal (fuel + 1) ('[' :: (']' :: rest)) = _
                rw [pVal_cons, if_neg (by decide), if_neg (by decide), if_neg (by decide),
                    if_neg (by decide), if_pos rfl]
                simp
            | cons x xs =>
                show pVal (fuel + 1) ('[' :: ((dumpsV x ++ dumpsL xs ++ [']']) ++ rest)) = _
                rw [pVal_cons, if_neg (by decide), if_neg (by decide), if_neg (by decide),
                    if_neg (by decide), if_pos rfl]
                have hassoc : (dumpsV x ++ dumpsL xs ++ [']']) ++ rest =
                    dumpsV x ++ (dumpsL xs ++ ']' :: rest) := by simp
                rw [hassoc]
                obtain ⟨c0, l0, hh, hc0⟩ := dumpsV_head x
                have hhead : ¬ (dumpsV x ++ (dumpsL xs ++ ']' :: rest)).head? = some ']' := by
                  rw [hh]
                  simp only [List.cons_append, List.head?_cons, Option.some.injEq]
                  rcases hc0 with h | h | h | h | h | h | h | h
                  · subst h; decide
                  · subst h; decide
                  · subst h; decide
                  · subst h; decide
                  · subst h; decide
                  · subst h; decide
                  · subst h; decide
                  · exact (digit_ne c0 h).2.1
                rw [if_neg hhead]
                have hlme : (dumpsV (Json.arr (x :: xs))).length =
                    1 + ((dumpsV x).length + ((dumpsL xs).length + 1)) := by
                  rw [show dumpsV (Json.arr (x :: xs)) =
                      '[' :: (dumpsV x ++ dumpsL xs ++ [']']) from rfl]
                  simp [List.length_append]
                  omega
                rw [hlme] at hlen
                have hlx : (dumpsV x).length + (dumpsL xs ++ ']' :: rest).length ≤ fuel := by
                  simp only [List.length_append, List.length_cons]
                  omega
                have hll : (dumpsL xs).length + 1 + rest.length ≤ fuel := by omega
                simp only [ihV x _ hlx (noDigit_L xs rest), ihL xs rest hll]
                rfl
        | obj fs =>
            match fs with
            | [] =>
                show pVal (fuel + 1) ('{' :: ('}' :: rest)) = _
                rw [pVal_cons, if_neg (by decide), if_neg (by decide), if_neg (by decide),
                    if_neg (by decide), if_neg (by decide), if_pos rfl]
                simp
            | (k, v) :: fs =>
                show pVal (fuel + 1)
                    ('{' :: ((dumpsMember k (dumpsV v) ++ dumpsO fs ++ ['}']) ++ rest)) = _
                rw [pVal_cons, if_neg (by decide), if_neg (by decide), if_neg (by decide),
                    if_neg (by decide), if_neg (by decide), if_pos rfl]
                have hassoc : (dumpsMember k (dumpsV v) ++ dumpsO fs ++ ['}']) ++ rest =
                    dumpsMember k (dumpsV v) ++ (dumpsO fs ++ '}' :: rest) := by simp
                rw [hassoc]
                have hhead : ¬ (dumpsMember k (dumpsV v) ++
                    (dumpsO fs ++ '}' :: rest)).head? = some '}' := by
                  rw [dumpsMember]
                  simp only [List.cons_append, List.head?_cons, Option.some.injEq]
                  decide
                rw [if_neg hhead]
                have hlme : (dumpsV (Json.obj ((k, v) :: fs))).length =
                    1 + ((dumpsMember k (dumpsV v)).length + ((dumpsO fs).length + 1)) := by
                  rw [show dumpsV (Json.obj ((k, v) :: fs)) =
                      '{' :: (dumpsMember k (dumpsV v) ++ dumpsO fs ++ ['}']) from rfl]
                  simp [List.length_append]
                  omega
                rw [hlme] at hlen
                have hlm : (dumpsMember k (dumpsV v)).length +
                    (dumpsO fs ++ '}' :: rest).length ≤ fuel := by
                  simp only [List.length_append, List.length_cons]
                  omega
                have hlo : (dumpsO fs).length + 1 + rest.length ≤ fuel := by omega
                simp only [ihM k v _ hlm (noDigit_O fs rest), ihO fs rest hlo]
                rfl
      have hM : ∀ (k : String) (v : Json) (rest : List Char),
          (dumpsMember k (dumpsV v)).length + rest.length ≤ fuel + 1 → noDigit rest →
          pMember (fuel + 1) (dumpsMember k (dumpsV v) ++ rest) = some ((k, v), rest) := by
        intro k v rest hlen hrest
        show pMember (fuel + 1)
            ('"' :: ((escList k.toList ++ ['"', ':', ' '] ++ dumpsV v) ++ rest)) = _
        rw [pMember_cons, if_pos rfl]
        have hn : (escList k.toList ++ ['"', ':', ' '] ++ dumpsV v) ++ rest =
            escList k.toList ++ '"' :: (':' :: ' ' :: (dumpsV v ++ rest)) := by simp
        rw [hn, pStrChars_esc]
        show (pVal fuel (dumpsV v ++ rest)).map _ = _
        have hlv : (dumpsV v).length + rest.length ≤ fuel := by
          rw [dumpsMember] at hlen
          simp only [List.length_cons, List.length_append] at hlen
          omega
        rw [ihV v rest hlv hrest]
        rfl
      have hL : ∀ (xs : List Json) (rest : List Char),
          (dumpsL xs).length + 1 + rest.length ≤ fuel + 1 →
          pListTail (fuel + 1) (dumpsL xs ++ ']' :: rest) = some (xs, rest) := by
        intro xs rest hlen
        cases xs with
        | nil => exact pListTail_close fuel rest
        | cons x xs =>
            have hn : dumpsL (x :: xs) ++ ']' :: rest =
                ',' :: ' ' :: (dumpsV x ++ (dumpsL xs ++ ']' :: rest)) := by
              rw [dumpsL]
              simp
            rw [hn, pListTail_comma]
            have hlme : (dumpsL (x :: xs)).length =
                2 + ((dumpsV x).length + (dumpsL xs).length) := by
              rw [dumpsL]
              simp [List.length_append]
              omega
            rw [hlme] at hlen
            have hlx : (dumpsV x).length + (dumpsL xs ++ ']' :: rest).length ≤ fuel := by
              simp only [List.length_append, List.length_cons]
              omega
            have hll : (dumpsL xs).length + 1 + rest.length ≤ fuel := by omega
            simp only [ihV x _ hlx (noDigit_L xs rest), ihL xs rest hll]
            rfl
      have hO : ∀ (fs : List (String × Json)) (rest : List Char),
          (dumpsO fs).length + 1 + rest.length ≤ fuel + 1 →
          pObjTail (fuel + 1) (dumpsO fs ++ '}' :: rest) = some (fs, rest) := by
        intro fs rest hlen
        match fs with
        | [] => exact pObjTail_close fuel rest
        | (k, v) :: fs =>
            have hn : dumpsO ((k, v) :: fs) ++ '}' :: rest =
                ',' :: ' ' :: (dumpsMember k (dumpsV v) ++ (dumpsO fs ++ '}' :: rest)) := by
              rw [dumpsO]
              simp
            rw [hn, pObjTail_comma]
            have hlme : (dumpsO ((k, v) :: fs)).length =
                2 + ((dumpsMember k (dumpsV v)).length + (dumpsO fs).length) := by
              rw [dumpsO]
              simp [List.length_append]
              omega
            rw [hlme] at hlen
            have hlm : (dumpsMember k (dumpsV v)).length +
                (dumpsO fs ++ '}' :: rest).length ≤ fuel := by
              simp only [List.length_append, List.length_cons]
              omega
            have hlo : (dumpsO fs).length + 1 + rest.length ≤ fuel := by omega
            simp only [ihM k v _ hlm (noDigit_O fs rest), ihO fs rest hlo]
            rfl
      exact ⟨hV, hM, hL, hO⟩

theorem json_loads_dumps (j : Json) : json_loads (json_dumps j) = some j := by
  rw [json_loads, json_dumps]
  have hlen : (String.mk (dumpsV j)).length = (dumpsV j).length := rfl
  have htl : (String.mk (dumpsV j)).toList = dumpsV j := rfl
  rw [hlen, htl]
  have := (parse_dumps_all (dumpsV j).length).1 j []
    (by simp) noDigit_nil
  rw [List.append_nil] at this
  rw [this]

/-! ## Client session, disk, and collaborator -/

/-- A company record, as far as the embedded code reads it: the code accesses
only `c['id']` and `c['isDefault']`. -/
structure Company where
  id : Int
  isDefault : Bool
deriving DecidableEq, Repr

/-- The client session state: authentication fields from `__init__` and
`add_credentials`, the offline caches, and the directory/location fields the
`client_resiliency` variant binds (`_content_dir`, `_zip_dir`, `_loc_id`). -/
structure Session where
  auth : Option (PyVal × PyVal)
  authHeader : Option String
  content_cache : Option Json
  ziprates_cache : Option Json
  default_comp : Option Company
  linux : Bool
  content_dir_f : Option String
  zip_dir_f : Option String
  loc_id_f : Option Int

/-- The filesystem: an association list from absolute path to file contents,
in creation order (directory listing order for `glob`). -/
abbrev Disk := List (String × String)

/-- Contents of the file at a path, if it exists (also the `os.path.isfile`
test). -/
def diskRead (d : Disk) (p : String) : Option String :=
  List.lookup p d

/-- Whole-file write (`open(path, 'w+')` followed by a full dump): replace an
existing file in place, else create it at the end of the listing. -/
def diskWrite (d : Disk) (p v : String) : Disk :=
  if d.any (fun kv => kv.1 = p) then
    d.map (fun kv => if kv.1 = p then (p, v) else kv)
  else d ++ [(p, v)]

/-- The remote collaborator (the mixed-in request methods, out of core
scope): `query_companies` yields the account company list,
`build_tax_content_file_for_location(company_id, loc_id)` yields the response
body, and `download_tax_rates_by_zip_code(date)` yields the body of the
`k`-th call made with that date. -/
structure Collab where
  companies : List Company
  build_tax_content : Int → PyVal → String
  download_zip : String → Nat → String

/-- `AvataxClient._get_default_comp`: return the cached default company if
truthy, else query the collaborator, cache and return the first company
flagged default (cache stays unset when none is flagged).  The `Bool`
records whether `query_companies` was invoked. -/
def get_default_comp (env : Collab) (s : Session) : Option Company × Session × Bool :=
  match s.default_comp with
  | some c => (some c, s, false)
  | Option.none =>
      match env.companies.find? (fun c => c.isDefault) with
      | some c => (some c, { s with default_comp := some c }, true)
      | Option.none => (Option.none, s, true)

/-- JSON form of the ZIP-rate dict passed to `json.dump`. -/
def zipJson (d : List (String × List String)) : Json :=
  Json.obj (d.map (fun kv => (kv.1, Json.arr (kv.2.map Json.str))))

/-- Result of a `sync_offline_content` call: the outcome (`none` for a normal
return), the session and disk afterwards, and the number of
`download_tax_rates_by_zip_code` invocations performed. -/
structure SyncResult where
  outcome : Option PyErr
  sess : Session
  disk : Disk
  downloads : Nat

/-- `AvataxClient.sync_offline_content` (`client.py` variant, call-scoped
directories), step by step from the source: validate the directory arguments,
default/validate `date`, resolve the default company (note: the `company_id`
argument is accepted but never read by this variant), fetch and parse the
location tax content, write it, then run the ZIP-rate retry loop, convert
and write the rate table.  `todayTag`/`todayDash` inject
`datetime.datetime.today()` in `%Y%m%d` / `%Y-%m-%d` form. -/
def sync_offline_content (env : Collab) (s : Session) (disk : Disk)
    (todayTag todayDash : String)
    (content_dir zip_dir loc_id company_id date : PyVal) : SyncResult :=
  if ¬ (content_dir.isStrOrNone && zip_dir.isStrOrNone) then
    ⟨some (.valueError "Directory path(s) must be a string"), s, disk, 0⟩
  else
    match (match date with
           | .none => Except.ok todayDash
           | .str d => Except.ok d
           | .int _ => Except.error (PyErr.valueError "Date must be a string")) with
    | .error e => ⟨some e, s, disk, 0⟩
    | .ok dateVal =>
      match get_default_comp env s with
      | (Option.none, s1, _) => ⟨some .typeError, s1, disk, 0⟩
      | (some comp, s1, _) =>
        match json_loads (env.build_tax_content comp.id loc_id) with
        | Option.none => ⟨some (.valueError "Expecting value: json.loads"), s1, disk, 0⟩
        | some content_json =>
          match path_joiner s1.linux todayTag content_dir "retailTaxContent.json" loc_id with
          | .error e => ⟨some e, s1, disk, 0⟩
          | .ok content_path =>
            let disk1 := diskWrite disk content_path (json_dumps content_json)
            match zipLoop (env.download_zip dateVal) with
            | (Option.none, n) =>
                ⟨some (.exception "Failed to fetch zip rate data from AvaTax API"), s1, disk1, n⟩
            | (some rows, n) =>
              match zipct_helper rows with
              | Option.none => ⟨some (.indexError "pop from empty list"), s1, disk1, n⟩
              | some zdict =>
                match path_joiner s1.linux todayTag zip_dir "zipRates.json" PyVal.none with
                | .error e => ⟨some e, s1, disk1, n⟩
                | .ok zip_path =>
                    ⟨Option.none, s1, diskWrite disk1 zip_path (json_dumps (zipJson zdict)), n⟩

/-- Result of a cache-loading call: outcome (`none` for a normal return) and
the session afterwards. -/
structure LoadResult where
  outcome : Option PyErr
  sess : Session

/-- `AvataxClient.with_retail_tax_content` (`client.py` variant): validate
the two arguments, build the cache path by plain string concatenation
`content_dir + str(loc_id) + '_retailTaxContent.json'`, raise `IndexError`
when the file is absent, else parse it into the session content cache. -/
def with_retail_tax_content (s : Session) (disk : Disk)
    (content_dir loc_id : PyVal) : LoadResult :=
  match content_dir with
  | .str cd =>
      match loc_id with
      | .int n =>
          let loc_file := cd ++ pyIntStr n ++ "_retailTaxContent.json"
          match diskRead disk loc_file with
          | Option.none =>
              ⟨some (.indexError "No content cache file found, call sync_offline_content method to cache files from AvaTax"), s⟩
          | some data =>
              match json_loads data with
              | Option.none => ⟨some (.valueError "Expecting value: json.loads"), s⟩
              | some j => ⟨Option.none, { s with content_cache := some j }⟩
      | _ => ⟨some (.valueError "Location ID must be in integer"), s⟩
  | _ => ⟨some (.valueError "Path to file must be a string"), s⟩

/-- Glob matching for the one pattern the code builds,
`zip_dir + '/*zipRates.json'`: the path extends `zip_dir ++ "/"`, ends in
`"zipRates.json"`, and the `*` part stays within one directory component and
does not begin a hidden file. -/
def globStarMatch (pre suf p : String) : Bool :=
  strStartsWith p pre && strEndsWith p suf && pre.length + suf.length ≤ p.length &&
    (let mid := (p.toList.drop pre.length).take (p.length - pre.length - suf.length)
     !mid.contains '/' && !(mid.head? == some '.'))

/-- `glob.glob(zip_dir + '/*zipRates.json')` over the modelled disk, in
listing order. -/
def pyGlob (disk : Disk) (zip_dir : String) : List String :=
  (disk.map Prod.fst).filter (globStarMatch (zip_dir ++ "/") "zipRates.json")

/-- Index of the last occurrence of a character, Python `str.rfind` style
(`-1` when absent). -/
def strRFind (s : String) (c : Char) : Int :=
  match s.toList.reverse.findIdx? (fun x => x = c) with
  | some i => ((s.length - 1 - i : Nat) : Int)
  | Option.none => -1

/-- Root part of `os.path.splitext`: cut at the last dot when it lies after
the last separator and the base name is not all dots. -/
def splitextRoot (p : String) : String :=
  let cs := p.toList
  let sep := strRFind p '/'
  let dot := strRFind p '.'
  if sep < dot then
    let base := (cs.drop (sep + 1).toNat).take (dot - sep - 1).toNat
    if base.any (fun c => c ≠ '.') then String.mk (cs.take dot.toNat) else p
  else p

/-- Python `pat in s` on strings. -/
def strContains (s pat : String) : Bool :=
  s.toList.tails.any (fun t => pat.toList.isPrefixOf t)

/-- The filtering date loop of `client_resiliency.Mixin._get_most_recent_file`:
only files whose extension-stripped name contains `'zipRates'` contribute a
date. -/
def resFileDates : List String → Except PyErr (List Int)
  | [] => .ok []
  | f :: fs =>
      if strContains (splitextRoot f) "zipRates" then
        match pyFileDate f with
        | .error e => .error e
        | .ok d =>
            match resFileDates fs with
            | .error e => .error e
            | .ok rest => .ok (d :: rest)
      else resFileDates fs

/-- `client_resiliency.Mixin._get_most_recent_file`: `ImportError` when the
glob result or the filtered date list is empty; else `max`, first index in
the *filtered* list, and that index into the *unfiltered* file list (the
source keeps this misalignment). -/
def get_most_recent_file_res (all_files : List String) : Except PyErr String :=
  if all_files.isEmpty then .error .importError
  else
    match resFileDates all_files with
    | .error e => .error e
    | .ok files_by_date =>
        if files_by_date.isEmpty then .error .importError
        else
          match pyMax files_by_date with
          | Option.none => .error (.valueError "max() arg is an empty sequence")
          | some d =>
              match files_by_date.findIdx? (fun x => x = d) with
              | Option.none => .error (.valueError "x not in list")
              | some idx =>
                  match all_files[idx]? with
                  | some f => .ok f
                  | Option.none => .error (.indexError "list index out of range")

/-- `client_resiliency.Mixin.with_zipcode_tax_content`: validate the
argument, bind `self._zip_dir`, resolve the latest snapshot, and on the
resolver raising `ImportError` log and return normally (configure-only);
else read and parse the file into the session ZIP-rate cache. -/
def with_zipcode_tax_content (s : Session) (disk : Disk) (zip_dir : PyVal) : LoadResult :=
  match zip_dir with
  | .str zd =>
      let s1 := { s with zip_dir_f := some zd }
      match get_most_recent_file_res (pyGlob disk zd) with
      | .error .importError => ⟨Option.none, s1⟩
      | .error e => ⟨some e, s1⟩
      | .ok recent =>
          match diskRead disk recent with
          | Option.none => ⟨some (.exception "FileNotFoundError"), s1⟩
          | some data =>
              match json_loads data with
              | Option.none => ⟨some (.valueError "Expecting value: json.loads"), s1⟩
              | some j => ⟨Option.none, { s1 with ziprates_cache := some j }⟩
  | _ => ⟨some (.valueError "Path to file must be a string"), s⟩

/-- `AvataxClient.with_zipcode_tax_content` (`client.py` variant): no
directory binding, uses the unfiltered resolver (which raises `ValueError`
from `max()` on an empty glob), `IndexError` when the resolved path is not a
file, else parses into the ZIP-rate cache. -/
def with_zipcode_tax_content_cl (s : Session) (disk : Disk) (zip_dir : PyVal) : LoadResult :=
  match zip_dir with
  | .str zd =>
      match get_most_recent_file (pyGlob disk zd) with
      | .error e => ⟨some e, s⟩
      | .ok recent =>
          match diskRead disk recent with
          | Option.none =>
              ⟨some (.indexError "No content cache file found, call sync_offline_content method to cache a files from AvaTax"), s⟩
          | some data =>
              match json_loads data with
              | Option.none => ⟨some (.valueError "Expecting value: json.loads"), s⟩
              | some j => ⟨Option.none, { s with ziprates_cache := some j }⟩
  | _ => ⟨some (.valueError "Path to file must be a string"), s⟩

/-- `AvataxClient.add_credentials`: validate both arguments against
`str_type`; a truthy username with a falsy password installs a Bearer
`Authorization` header, anything else installs `HTTPBasicAuth(username,
password)`. -/
def add_credentials (s : Session) (username password : PyVal) : Option PyErr × Session :=
  if ¬ (username.isStrOrNone && password.isStrOrNone) then
    (some (.valueError "Input(s) must be string or none type object"), s)
  else if username.truthy && !password.truthy then
    (Option.none, { s with authHeader := some ("Bearer " ++ username.pystr) })
  else
    (Option.none, { s with auth := some (username, password) })


/-! ## Claim theorems -/

/-- String append acts as list append on the character data. -/
theorem string_toList_append (a b : String) : (a ++ b).toList = a.toList ++ b.toList := rfl

/-- The first character of a printed integer is a minus sign or a digit. -/
theorem intChars_head (n : Int) :
    ∃ c l, intChars n = c :: l ∧ (c = '-' ∨ c.isDigit = true) := by
  by_cases hneg : n < 0
  · exact ⟨'-', _, by rw [intChars, if_pos hneg], Or.inl rfl⟩
  · obtain ⟨c, cs, h⟩ := List.exists_cons_of_ne_nil (natChars_ne_nil n.toNat)
    have hall := natChars_all_digit n.toNat
    rw [h] at hall
    simp only [List.all_cons, Bool.and_eq_true] at hall
    exact ⟨c, cs, by rw [intChars, if_neg hneg, h], Or.inr hall.1⟩

/-- A printed integer never starts with a path separator. -/
theorem pyIntStr_startsWith_slash (n : Int) (x : String) :
    strStartsWith (pyIntStr n ++ x) "/" = false := by
  obtain ⟨c, l, hch, hc⟩ := intChars_head n
  have hlist : (pyIntStr n ++ x).toList = c :: (l ++ x.toList) := by
    rw [string_toList_append]
    show intChars n ++ x.toList = _
    rw [hch]
    simp
  rw [strStartsWith, hlist]
  show ('/' == c && List.isPrefixOf [] (l ++ x.toList)) = false
  have hne : ¬ ('/' : Char) = c := by
    rcases hc with h | h
    · subst h; decide
    · intro hc'
      rw [← hc'] at h
      exact absurd h (by decide)
  simp [beq_iff_eq, hne]

/-- A printed integer followed by anything never starts with a path
separator (associated form). -/
theorem pyIntStr_mid_startsWith_slash (n : Int) (a b : String) :
    strStartsWith (pyIntStr n ++ a ++ b) "/" = false := by
  rw [String.append_assoc]
  exact pyIntStr_startsWith_slash n (a ++ b)

/-- Prefix decomposition of `_path_joiner` output: with a nonzero integer
entity id the produced path is some prefix followed by
`str(loc_id) + '_' + file_name`; with the id absent, some prefix followed by
`today + '_' + file_name`. -/
theorem path_joiner_filename_split (linux : Bool) (todayTag base fn : String)
    (n : Int) (hn : n ≠ 0) :
    (∃ pre, path_joiner linux todayTag (.str base) fn (.int n) =
        .ok (pre ++ (pyIntStr n ++ "_" ++ fn))) ∧
    (∃ pre, path_joiner linux todayTag (.str base) fn PyVal.none =
        .ok (pre ++ (todayTag ++ "_" ++ fn))) := by
  have ht : (PyVal.int n).truthy = true := by simp [PyVal.truthy, hn]
  constructor
  · simp only [path_joiner, ht, if_true, PyVal.pystr]
    cases linux with
    | false =>
        refine ⟨base ++ "\\", ?_⟩
        simp [String.append_assoc]
    | true =>
        simp only [if_true]
        rw [pyOsJoin, pyIntStr_mid_startsWith_slash n "_" fn]
        simp only [Bool.false_eq_true, if_false]
        by_cases hbase : (decide (base = "") || strEndsWith base "/") = true
        · rw [if_pos hbase]
          exact ⟨base, rfl⟩
        · rw [if_neg hbase]
          refine ⟨base ++ "/", ?_⟩
          rw [String.append_assoc]
  · simp only [path_joiner, PyVal.truthy, Bool.false_eq_true, if_false]
    cases linux with
    | false =>
        refine ⟨base ++ "\\", ?_⟩
        simp [String.append_assoc]
    | true =>
        simp only [if_true]
        rw [pyOsJoin]
        by_cases hs : strStartsWith (todayTag ++ "_" ++ fn) "/" = true
        · rw [if_pos hs]
          refine ⟨"", ?_⟩
          simp
        · rw [if_neg hs]
          by_cases hbase : (decide (base = "") || strEndsWith base "/") = true
          · rw [if_pos hbase]
            exact ⟨base, rfl⟩
          · rw [if_neg hbase]
            refine ⟨base ++ "/", ?_⟩
            rw [String.append_assoc]

/-- Appending a suffix makes the suffix test true. -/
theorem strEndsWith_append (a b : String) : strEndsWith (a ++ b) b = true := by
  rw [strEndsWith, string_toList_append]
  simp only [List.isSuffixOf_iff_suffix, decide_eq_true_eq]
  exact List.suffix_append _ _

/-- C5 (corrected): for every base directory, logical name and nonzero
integer entity id, `PathNamer.join` (`_path_joiner`) produces a path ending
in `"{entityId}_{logicalName}"`; when the entity id is absent the path ends
in `"{today}_{logicalName}"`.  The original claim, quantifying over every
given entity id, fails at the falsy id `0` (see the counterexample). -/
theorem c5_path_joiner_truthy_filename (linux : Bool) (todayTag base fn : String)
    (n : Int) (hn : n ≠ 0) :
    (∀ p, path_joiner linux todayTag (.str base) fn (.int n) = .ok p →
        strEndsWith p (pyIntStr n ++ "_" ++ fn) = true) ∧
    (∀ p, path_joiner linux todayTag (.str base) fn PyVal.none = .ok p →
        strEndsWith p (todayTag ++ "_" ++ fn) = true) := by
  obtain ⟨⟨pre1, h1⟩, ⟨pre2, h2⟩⟩ := path_joiner_filename_split linux todayTag base fn n hn
  constructor
  · intro p hp
    rw [h1, Except.ok.injEq] at hp
    rw [← hp]
    exact strEndsWith_append _ _
  · intro p hp
    rw [h2, Except.ok.injEq] at hp
    rw [← hp]
    exact strEndsWith_append _ _

/-- C5 counterexample: at the given entity id `0` (a legal location id), the
produced filename carries today's date tag, not `"0_retailTaxContent.json"`:
the claim's "for every entity id" fails. -/
theorem c5_counterexample :
    path_joiner true "20251012" (.str "/a/b") "retailTaxContent.json" (.int 0) =
      .ok "/a/b/20251012_retailTaxContent.json" ∧
    strEndsWith "/a/b/20251012_retailTaxContent.json"
      ((PyVal.int 0).pystr ++ "_" ++ "retailTaxContent.json") = false :=
  ⟨rfl, by decide⟩

/-- C5 witness: the amended theorem applied at the spec's own example,
`join("/a/b", "retailTaxContent.json", 42)`. -/
theorem c5_witness :
    strEndsWith "/a/b/42_retailTaxContent.json"
      (pyIntStr 42 ++ "_" ++ "retailTaxContent.json") = true ∧
    strEndsWith "/a/b/20251012_retailTaxContent.json"
      ("20251012" ++ "_" ++ "retailTaxContent.json") = true := by
  constructor
  · exact (c5_path_joiner_truthy_filename true "20251012" "/a/b" "retailTaxContent.json" 42
      (by decide)).1 _ rfl
  · exact (c5_path_joiner_truthy_filename true "20251012" "/a/b" "retailTaxContent.json" 42
      (by decide)).2 _ rfl

/-- A fresh client session, as `__init__` leaves it on a POSIX platform: no
credentials, no caches, no bound directories. -/
def initSession : Session :=
  ⟨Option.none, Option.none, Option.none, Option.none, Option.none, true,
   Option.none, Option.none, Option.none⟩

/-- C8 counterexample: with the text username `"u"` and the text password
`""`, `add_credentials` installs a Bearer header and leaves `self.auth`
unset — basic-auth mode is not entered although both arguments are text. -/
theorem c8_counterexample :
    (add_credentials initSession (.str "u") (.str "")).1 = Option.none ∧
    (add_credentials initSession (.str "u") (.str "")).2.auth = Option.none ∧
    (add_credentials initSession (.str "u") (.str "")).2.authHeader = some "Bearer u" :=
  ⟨rfl, rfl, rfl⟩

/-- C8 (corrected): a non-text argument fails with `ValueError` before any
authentication state changes; a *non-empty* text username with an absent or
empty password puts the session in bearer mode (Authorization header set,
`auth` untouched); every other validated combination installs
`HTTPBasicAuth(username, password)`.  The original claim fails at the empty
text password (see the counterexample). -/
theorem c8_add_credentials (s : Session) (u p : PyVal) :
    ((u.isStrOrNone = false ∨ p.isStrOrNone = false) →
        add_credentials s u p =
          (some (.valueError "Input(s) must be string or none type object"), s)) ∧
    (∀ us, u = .str us → us ≠ "" → p.isStrOrNone = true → p.truthy = false →
        add_credentials s u p =
          (Option.none, { s with authHeader := some ("Bearer " ++ us) })) ∧
    (u.isStrOrNone = true → p.isStrOrNone = true →
        (u.truthy = false ∨ p.truthy = true) →
        add_credentials s u p = (Option.none, { s with auth := some (u, p) })) := by
    refine ⟨?_, ?_, ?_⟩
    · intro h
      rw [add_credentials, if_pos]
      rcases h with h | h <;> simp [h]
    · intro us hu hune h2 hp
      subst hu
      have h1 : (PyVal.str us).isStrOrNone = true := rfl
      have ht : (PyVal.str us).truthy = true := by simp [PyVal.truthy, hune]
      rw [add_credentials, if_neg (by simp [h1, h2]), if_pos (by simp [ht, hp])]
      rfl
    · intro h1 h2 h3
      rw [add_credentials, if_neg (by simp [h1, h2]), if_neg]
      simp only [Bool.and_eq_true, Bool.not_eq_true']
      rcases h3 with h | h
      · intro hc
        rw [h] at hc
        exact absurd hc.1 (by decide)
      · intro hc
        rw [h] at hc
        exact absurd hc.2 (by decide)

/-- C8 witness: the amended theorem applied at the spec's three examples —
`configure(username=42)` fails with `ValueError`, `configure("tok123")`
yields bearer mode, `configure("u", "p")` yields basic-auth mode. -/
theorem c8_witness :
    add_credentials initSession (.int 42) PyVal.none =
      (some (.valueError "Input(s) must be string or none type object"), initSession) ∧
    add_credentials initSession (.str "tok123") PyVal.none =
      (Option.none, { initSession with authHeader := some "Bearer tok123" }) ∧
    add_credentials initSession (.str "u") (.str "p") =
      (Option.none, { initSession with auth := some (.str "u", .str "p") }) := by
  refine ⟨?_, ?_, ?_⟩
  · exact (c8_add_credentials initSession (.int 42) PyVal.none).1 (Or.inl rfl)
  · exact (c8_add_credentials initSession (.str "tok123") PyVal.none).2.1 "tok123" rfl
      (by decide) rfl rfl
  · exact (c8_add_credentials initSession (.str "u") (.str "p")).2.2 rfl rfl
      (Or.inr (by decide))

/-- Looking up the key just assigned by `pyDictSet` yields the new value. -/
theorem lookup_pyDictSet_self (d : List (String × List String)) (k : String)
    (v : List String) : List.lookup k (pyDictSet d k v) = some v := by
  rw [pyDictSet]
  by_cases h : d.any (fun kv => kv.1 = k) = true
  · rw [if_pos h]
    induction d with
    | nil => simp at h
    | cons a rest ih =>
        simp only [List.any_cons, Bool.or_eq_true, decide_eq_true_eq] at h
        simp only [List.map_cons]
        by_cases ha : a.1 = k
        · rw [if_pos ha, List.lookup_cons]
          simp
        · rw [if_neg ha, List.lookup_cons]
          have hbeq : (k == a.1) = false := by
            simp only [beq_eq_false_iff_ne, ne_eq]
            exact fun hh => ha hh.symm
          rw [hbeq]
          exact ih (h.resolve_left ha)
  · rw [if_neg h]
    induction d with
    | nil =>
        rw [List.nil_append, List.lookup_cons]
        simp
    | cons a rest ih =>
        simp only [List.any_cons, Bool.or_eq_true, decide_eq_true_eq] at h
        push_neg at h
        rw [List.cons_append, List.lookup_cons]
        have hbeq : (k == a.1) = false := by
          simp only [beq_eq_false_iff_ne, ne_eq]
          exact fun hh => h.1 hh.symm
        rw [hbeq]
        exact ih h.2

/-- Looking up any other key is unaffected by `pyDictSet`. -/
theorem lookup_pyDictSet_other (d : List (String × List String)) (k k' : String)
    (v : List String) (hne : k' ≠ k) :
    List.lookup k' (pyDictSet d k v) = List.lookup k' d := by
  rw [pyDictSet]
  by_cases h : d.any (fun kv => kv.1 = k) = true
  · rw [if_pos h]
    clear h
    induction d with
    | nil => simp
    | cons a rest ih =>
        simp only [List.map_cons]
        by_cases ha : a.1 = k
        · rw [if_pos ha, List.lookup_cons, List.lookup_cons]
          have h1 : (k' == k) = false := by
            simp only [beq_eq_false_iff_ne, ne_eq]
            exact hne
          have h2 : (k' == a.1) = false := by
            simp only [beq_eq_false_iff_ne, ne_eq]
            rw [ha]
            exact hne
          rw [h1, h2]
          exact ih
        · rw [if_neg ha, List.lookup_cons, List.lookup_cons]
          cases hbeq : (k' == a.1) with
          | true => rfl
          | false => exact ih
  · rw [if_neg h]
    clear h
    induction d with
    | nil =>
        rw [List.nil_append, List.lookup_cons]
        have hbeq : (k' == k) = false := by
          simp only [beq_eq_false_iff_ne, ne_eq]
          exact hne
        rw [hbeq]
    | cons a rest ih =>
        rw [List.cons_append, List.lookup_cons, List.lookup_cons]
        cases hbeq : (k' == a.1) with
        | true => rfl
        | false => exact ih

/-- The effect of the whole `_zipct_helper` loop over an arbitrary starting
dict: every key reads as the tail of the last row keyed by it, and
otherwise as in the starting dict. -/
theorem zipctGo_spec (rows : List (List String)) (hne : ∀ r ∈ rows, r ≠ [])
    (d0 : List (String × List String)) :
    ∃ d, zipctGo rows d0 = some d ∧
      ∀ k, List.lookup k d =
        match rows.reverse.find? (fun r => r.headI = k) with
        | some r => some r.tail
        | Option.none => List.lookup k d0 := by
  induction rows generalizing d0 with
  | nil => exact ⟨d0, rfl, fun k => rfl⟩
  | cons r more ih =>
      obtain ⟨code, rest, rfl⟩ : ∃ c t, r = c :: t := by
        cases r with
        | nil => exact absurd rfl (hne [] (by simp))
        | cons c t => exact ⟨c, t, rfl⟩
      obtain ⟨d, hd, hspec⟩ := ih (fun r hr => hne r (by simp [hr]))
        (pyDictSet d0 code rest)
      refine ⟨d, hd, fun k => ?_⟩
      rw [hspec k]
      have hrev : ((code :: rest) :: more).reverse =
          more.reverse ++ [code :: rest] := by simp
      rw [hrev, List.find?_append]
      cases hfind : more.reverse.find? (fun r => r.headI = k) with
      | some r' => simp
      | none =>
          simp only [Option.none_or]
          by_cases hk : code = k
          · subst hk
            have hp : List.find? (fun r => decide (r.headI = code)) [code :: rest] =
                some (code :: rest) := by
              simp [List.find?, List.headI]
            rw [lookup_pyDictSet_self, hp]
            rfl
          · have hp : List.find? (fun r => decide (r.headI = k)) [code :: rest] =
                Option.none := by
              simp [List.find?, List.headI, hk]
            rw [hp, lookup_pyDictSet_other d0 code k rest (fun h => hk h.symm)]

/-- In a row list with pairwise-distinct first fields, searching the
reversed list for a member row's first field finds that very row. -/
theorem find_headI_reverse (rows : List (List String)) (r : List String)
    (hnd : (rows.map (fun r => r.headI)).Nodup) (hr : r ∈ rows) :
    rows.reverse.find? (fun r' => r'.headI = r.headI) = some r := by
  induction rows with
  | nil => simp at hr
  | cons x xs ih =>
      simp only [List.map_cons, List.nodup_cons] at hnd
      rw [List.reverse_cons, List.find?_append]
      rcases List.mem_cons.mp hr with rfl | hr'
      · have hnone : xs.reverse.find? (fun r' => r'.headI = r.headI) =
            Option.none := by
          rw [List.find?_eq_none]
          intro a ha
          simp only [decide_eq_true_eq]
          intro hak
          exact hnd.1 (List.mem_map.mpr ⟨a, List.mem_reverse.mp ha, hak⟩)
        rw [hnone]
        simp [List.find?]
      · rw [ih hnd.2 hr']
        simp

/-- C6 (confirmed): on non-empty CSV rows `_zipct_helper` never errors; a
key is present exactly when it occurs as a first column; with unique first
columns every row's key maps to that row's remaining fields in order; and in
general a key maps to the remaining fields of the *last* row carrying it
(silent overwrite, no error). -/
theorem c6_zipct_helper (rows : List (List String)) (hne : ∀ r ∈ rows, r ≠ []) :
    (zipct_helper rows).isSome = true ∧
    ∀ d, zipct_helper rows = some d →
      ((∀ k, (List.lookup k d).isSome = true ↔ k ∈ rows.map (fun r => r.headI)) ∧
       ((rows.map (fun r => r.headI)).Nodup →
          ∀ r ∈ rows, List.lookup r.headI d = some r.tail) ∧
       (∀ k, List.lookup k d =
          (rows.reverse.find? (fun r => r.headI = k)).map (fun r => r.tail))) := by
  obtain ⟨d, hd, hspec⟩ := zipctGo_spec rows hne []
  have hmain : ∀ d', zipct_helper rows = some d' → d' = d := by
    intro d' hd'
    rw [zipct_helper] at hd'
    rw [hd] at hd'
    exact (Option.some.injEq .. ▸ hd').symm
  have hlast : ∀ k, List.lookup k d =
      (rows.reverse.find? (fun r => r.headI = k)).map (fun r => r.tail) := by
    intro k
    rw [hspec k]
    cases hfind : rows.reverse.find? (fun r => r.headI = k) <;> rfl
  refine ⟨by rw [zipct_helper, hd]; rfl, ?_⟩
  intro d' hd'
  rw [hmain d' hd']
  refine ⟨?_, ?_, hlast⟩
  · intro k
    rw [hlast k]
    cases hfind : rows.reverse.find? (fun r => r.headI = k) with
    | some r =>
        have hr := List.find?_some hfind
        have hmem := List.mem_reverse.mp (List.mem_of_find?_eq_some hfind)
        simp only [decide_eq_true_eq] at hr
        exact ⟨fun _ => List.mem_map.mpr ⟨r, hmem, hr⟩, fun _ => rfl⟩
    | none =>
        refine ⟨fun h => by simp at h, fun hk => ?_⟩
        obtain ⟨r, hr, hrk⟩ := List.mem_map.mp hk
        have := List.find?_eq_none.mp hfind r (List.mem_reverse.mpr hr)
        simp [hrk] at this
  · intro hnd r hr
    rw [hlast r.headI, find_headI_reverse rows r hnd hr]
    rfl

/-- C6 witness: the theorem applied to a concrete row set with a duplicated
ZIP code; the duplicate's last occurrence wins. -/
theorem c6_witness :
    (zipct_helper [["98101", "0.1"], ["98102", "0.2"], ["98101", "0.3"]]).isSome = true ∧
    List.lookup "98101" [("98101", ["0.3"]), ("98102", ["0.2"])] = some ["0.3"] := by
  have h := c6_zipct_helper [["98101", "0.1"], ["98102", "0.2"], ["98101", "0.3"]]
    (by decide)
  refine ⟨h.1, ?_⟩
  have h3 := (h.2 [("98101", ["0.3"]), ("98102", ["0.2"])] rfl).2.2 "98101"
  rw [h3]
  rfl

/-- When every response in reach of the loop parses short, the loop raises
after downloading once per iteration plus the final discarded attempt. -/
theorem zipLoopAux_short (resp : Nat → String) :
    ∀ (rem count : Nat) (lst : List (List String)), lst.length < 100 →
    (∀ k, count ≤ k → k < count + rem → (pyCsvRows (resp k)).length < 100) →
    zipLoopAux resp rem count lst = (Option.none, count + rem + 1) := by
  intro rem
  induction rem with
  | zero =>
      intro count lst hlst _
      rw [zipLoopAux, if_pos hlst]
  | succ r ih =>
      intro count lst hlst hshort
      rw [zipLoopAux, if_pos hlst]
      show zipLoopAux resp r (count + 1) (pyCsvRows (resp count)) = _
      have hrow : (pyCsvRows (resp count)).length < 100 :=
        hshort count (Nat.le_refl _) (by omega)
      rw [ih (count + 1) (pyCsvRows (resp count)) hrow
        (fun k hk1 hk2 => hshort k (by omega) (by omega))]
      rw [show count + 1 + r + 1 = count + (r + 1) + 1 from by omega]

/-- When the first long response arrives strictly before the countdown runs
out, the loop returns it, having downloaded once per attempt so far. -/
theorem zipLoopAux_success (resp : Nat → String) :
    ∀ (rem count : Nat) (lst : List (List String)), lst.length < 100 →
    ∀ k0, count ≤ k0 → k0 < count + rem →
    (∀ k, count ≤ k → k < k0 → (pyCsvRows (resp k)).length < 100) →
    100 ≤ (pyCsvRows (resp k0)).length →
    zipLoopAux resp rem count lst = (some (pyCsvRows (resp k0)), k0 + 1) := by
  intro rem
  induction rem with
  | zero =>
      intro count lst hlst k0 h1 h2
      omega
  | succ r ih =>
      intro count lst hlst k0 h1 h2 hshort hlong
      rw [zipLoopAux, if_pos hlst]
      show zipLoopAux resp r (count + 1) (pyCsvRows (resp count)) = _
      by_cases hk : k0 = count
      · subst hk
        rw [zipLoopAux, if_neg (by omega)]
      · have hrow : (pyCsvRows (resp count)).length < 100 :=
          hshort count (Nat.le_refl _) (by omega)
        exact ih (count + 1) (pyCsvRows (resp count)) hrow k0 (by omega) (by omega)
          (fun k hk1 hk2 => hshort k (by omega) hk2) hlong

/-- The loop never downloads more than once per iteration plus the final
discarded attempt. -/
theorem zipLoopAux_downloads_le (resp : Nat → String) :
    ∀ (rem count : Nat) (lst : List (List String)),
    count ≤ (zipLoopAux resp rem count lst).2 ∧
    (zipLoopAux resp rem count lst).2 ≤ count + rem + 1 := by
  intro rem
  induction rem with
  | zero =>
      intro count lst
      rw [zipLoopAux]
      by_cases h : lst.length < 100
      · rw [if_pos h]
        show count ≤ count + 1 ∧ count + 1 ≤ count + 0 + 1
        omega
      · rw [if_neg h]
        show count ≤ count ∧ count ≤ count + 0 + 1
        omega
  | succ r ih =>
      intro count lst
      rw [zipLoopAux]
      by_cases h : lst.length < 100
      · rw [if_pos h]
        show count ≤ (zipLoopAux resp r (count + 1) (pyCsvRows (resp count))).2 ∧
          (zipLoopAux resp r (count + 1) (pyCsvRows (resp count))).2 ≤ count + (r + 1) + 1
        have := ih (count + 1) (pyCsvRows (resp count))
        omega
      · rw [if_neg h]
        show count ≤ count ∧ count ≤ count + (r + 1) + 1
        omega

/-- C1 (corrected): for every sequence of collaborator responses the retry
loop downloads at most 11 times, not 10.  It succeeds with the first
response among attempts 1..10 that parses to at least 100 CSV rows — in
particular on the 10th attempt when the first 9 are short — after exactly
`k0 + 1` downloads; when none of the first 10 responses reaches 100 rows it
performs an 11th download, discards that response, and raises the
`UpstreamUnavailable` failure after exactly 11 download invocations. -/
theorem c1_zip_retry_loop (resp : Nat → String) :
    (zipLoop resp).2 ≤ 11 ∧
    ((∀ k, k < 10 → (pyCsvRows (resp k)).length < 100) →
        zipLoop resp = (Option.none, 11)) ∧
    (∀ k0, k0 < 10 → (∀ k, k < k0 → (pyCsvRows (resp k)).length < 100) →
        100 ≤ (pyCsvRows (resp k0)).length →
        zipLoop resp = (some (pyCsvRows (resp k0)), k0 + 1)) := by
  refine ⟨?_, ?_, ?_⟩
  · exact (zipLoopAux_downloads_le resp 10 0 []).2
  · intro hshort
    exact zipLoopAux_short resp 10 0 [] (by simp)
      (fun k hk1 hk2 => hshort k (by omega))
  · intro k0 hk0 hshort hlong
    exact zipLoopAux_success resp 10 0 [] (by simp) k0 (by omega) (by omega)
      (fun k hk1 hk2 => hshort k hk2) hlong

/-- C1 counterexample: a collaborator that always answers with a single CSV
row drives the loop to exactly 11 download invocations before the failure —
the claimed cap of 10 invocations does not hold. -/
theorem c1_counterexample :
    zipLoop (fun _ => "98101,0.1") = (Option.none, 11) ∧ (11 : Nat) ≠ 10 := by
  constructor
  · rfl
  · decide

set_option maxRecDepth 4000 in
/-- C1 witness: the amended theorem applied to the spec's fake collaborator
that returns a 3-row table for the first 9 calls and a 150-row table on the
10th: sync's loop succeeds on the 10th attempt with the 150-row table. -/
theorem c1_witness :
    zipLoop (fun k => if k = 9 then
        String.intercalate "\n" (List.replicate 150 "98101,0.1")
      else "98101,0.1\n98102,0.2\n98103,0.3") =
      (some (pyCsvRows (String.intercalate "\n" (List.replicate 150 "98101,0.1"))), 10) := by
  have h := (c1_zip_retry_loop (fun k => if k = 9 then
      String.intercalate "\n" (List.replicate 150 "98101,0.1")
    else "98101,0.1\n98102,0.2\n98103,0.3")).2.2 9 (by omega)
    (fun k hk => by
      interval_cases k <;> decide)
    (by decide)
  simpa using h

/-- A successful date-accumulation pass yields one date per file. -/
theorem filesByDate_length :
    ∀ (l : List String) (ds : List Int), filesByDate l = .ok ds →
      ds.length = l.length := by
  intro l
  induction l with
  | nil =>
      intro ds h
      rw [filesByDate] at h
      cases h
      rfl
  | cons f fs ih =>
      intro ds h
      rw [filesByDate] at h
      cases hpd : pyFileDate f with
      | error e => rw [hpd] at h; cases h
      | ok d =>
          rw [hpd] at h
          cases hfs : filesByDate fs with
          | error e => rw [hfs] at h; cases h
          | ok rest =>
              rw [hfs] at h
              cases h
              simp [ih rest hfs]

/-- Python `max` over a non-empty list: the result is a member and an upper
bound. -/
theorem pyMax_spec (l : List Int) (d : Int) (h : pyMax l = some d) :
    d ∈ l ∧ ∀ x ∈ l, x ≤ d := by
  have main : ∀ (xs : List Int) (a : Int),
      (xs.foldl max a = a ∨ xs.foldl max a ∈ xs) ∧
      a ≤ xs.foldl max a ∧ ∀ x ∈ xs, x ≤ xs.foldl max a := by
    intro xs
    induction xs with
    | nil => exact fun a => ⟨Or.inl rfl, le_refl a, by simp⟩
    | cons x xs ih =>
        intro a
        obtain ⟨hmem, hle, hub⟩ := ih (max a x)
        refine ⟨?_, ?_, ?_⟩
        · rcases hmem with hm | hm
          · rcases max_choice a x with hc | hc
            · exact Or.inl (by rw [List.foldl_cons, hm, hc])
            · exact Or.inr (by rw [List.foldl_cons, hm, hc]; simp)
          · exact Or.inr (by simp [hm])
        · calc a ≤ max a x := le_max_left a x
            _ ≤ (x :: xs).foldl max a := hle
        · intro y hy
          rcases List.mem_cons.mp hy with rfl | hy'
          · calc y ≤ max a y := le_max_right a y
              _ ≤ (y :: xs).foldl max a := hle
          · exact hub y hy'
  cases l with
  | nil => cases h
  | cons x xs =>
      rw [pyMax] at h
      cases h
      obtain ⟨hmem, hle, hub⟩ := main xs x
      refine ⟨?_, ?_⟩
      · rcases hmem with hm | hm
        · rw [hm]; simp
        · simp [hm]
      · intro y hy
        rcases List.mem_cons.mp hy with rfl | hy'
        · exact hle
        · exact hub y hy'

/-- C7 (confirmed): when every matching file carries a parseable date token
(`filesByDate` succeeds) and the list is non-empty,
`_get_most_recent_file` returns the file at the first index whose
second-to-last underscore token parses to the maximal integer: the date at
that index dominates all dates, and every earlier index carries a strictly
smaller date (ties resolved to the first occurrence in listing order). -/
theorem c7_get_most_recent_file (all_files : List String) (dates : List Int)
    (hfd : filesByDate all_files = .ok dates) (hne : all_files ≠ []) :
    ∃ (i : Nat) (hi : i < all_files.length) (hd : i < dates.length),
      get_most_recent_file all_files = .ok (all_files.get ⟨i, hi⟩) ∧
      (∀ j (hj : j < dates.length), dates.get ⟨j, hj⟩ ≤ dates.get ⟨i, hd⟩) ∧
      (∀ j (hj : j < dates.length), j < i → dates.get ⟨j, hj⟩ < dates.get ⟨i, hd⟩) := by
  have hlen : dates.length = all_files.length := filesByDate_length _ _ hfd
  have hdne : dates ≠ [] := by
    intro h
    subst h
    exact hne (List.eq_nil_of_length_eq_zero hlen.symm)
  obtain ⟨m, hm⟩ : ∃ m, pyMax dates = some m := by
    cases dates with
    | nil => exact absurd rfl hdne
    | cons x xs => exact ⟨_, rfl⟩
  obtain ⟨hmem, hub⟩ := pyMax_spec dates m hm
  have hidx0 : dates.findIdx? (fun x => decide (x = m)) =
      some (dates.findIdx (fun x => decide (x = m))) :=
    List.findIdx?_eq_some_of_exists ⟨m, hmem, by simp⟩
  obtain ⟨idx, hidx⟩ : ∃ idx, dates.findIdx? (fun x => decide (x = m)) = some idx :=
    ⟨_, hidx0⟩
  obtain ⟨hlt, hpm, hprior⟩ := List.findIdx?_eq_some_iff_getElem.mp hidx
  have hif : idx < all_files.length := hlen ▸ hlt
  refine ⟨idx, hif, hlt, ?_, ?_, ?_⟩
  · simp only [get_most_recent_file, hfd, hm, hidx, List.getElem?_eq_getElem hif]
    simp
  · intro j hj
    have : dates.get ⟨idx, hlt⟩ = m := by
      have := hpm
      simp only [decide_eq_true_eq] at this
      simpa using this
    rw [this]
    exact hub _ (List.get_mem dates j hj)
  · intro j hj hji
    have hidxm : dates.get ⟨idx, hlt⟩ = m := by
      have := hpm
      simp only [decide_eq_true_eq] at this
      simpa using this
    have hjne : ¬ dates.get ⟨j, hj⟩ = m := by
      have := hprior j hji
      simp only [decide_eq_true_eq] at this
      simpa using this
    have hjle : dates.get ⟨j, hj⟩ ≤ m := hub _ (List.get_mem dates j hj)
    rw [hidxm]
    exact lt_of_le_of_ne hjle hjne

/-- C7 witness: the theorem applied to the spec's example set dated
20230101, 20230215, 20221231: the 20230215 file is returned. -/
theorem c7_witness :
    get_most_recent_file ["z/20230101_zipRates.json", "z/20230215_zipRates.json",
      "z/20221231_zipRates.json"] = .ok "z/20230215_zipRates.json" := by
  obtain ⟨i, hi, hd, hres, hmax, hfirst⟩ :=
    c7_get_most_recent_file
      ["z/20230101_zipRates.json", "z/20230215_zipRates.json",
        "z/20221231_zipRates.json"]
      [20230101, 20230215, 20221231] (by rfl) (by simp)
  have hi3 : i < 3 := by simpa using hd
  interval_cases i
  · have h1 := hmax 1 (by decide)
    simp at h1
  · exact hres
  · have h1 := hfirst 1 (by decide) (by omega)
    simp at h1

/-- C9 (confirmed): when no company in the collaborator's list is flagged
default and the session cache is empty, `_get_default_comp` queries the
collaborator, returns `None`, and leaves the whole session (in particular
the default-company cache) unchanged, so a subsequent call queries again;
`sync_offline_content` then fails by subscripting `None`
(`default_comp['id']`) with a `TypeError`, which is none of the
`InvalidArgument`/`NotFound`/`UpstreamUnavailable` taxonomy errors. -/
theorem c9_no_default_company (env : Collab) (s : Session) (disk : Disk)
    (todayTag todayDash : String) (cd zd : String) (lid cid dateArg : PyVal)
    (hcache : s.default_comp = Option.none)
    (hnodef : ∀ c ∈ env.companies, c.isDefault = false)
    (hdate : dateArg = PyVal.none ∨ ∃ d, dateArg = .str d) :
    (get_default_comp env s).1 = Option.none ∧
    (get_default_comp env s).2.1 = s ∧
    (get_default_comp env s).2.2 = true ∧
    (get_default_comp env (get_default_comp env s).2.1).2.2 = true ∧
    (sync_offline_content env s disk todayTag todayDash
        (.str cd) (.str zd) lid cid dateArg).outcome = some PyErr.typeError ∧
    (∀ msg, PyErr.typeError ≠ PyErr.valueError msg ∧
        PyErr.typeError ≠ PyErr.indexError msg ∧
        PyErr.typeError ≠ PyErr.exception msg) := by
  have hfind : env.companies.find? (fun c => c.isDefault) = Option.none := by
    rw [List.find?_eq_none]
    intro c hc
    simp [hnodef c hc]
  have hgd : get_default_comp env s = (Option.none, s, true) := by
    rw [get_default_comp, hcache, hfind]
  refine ⟨by rw [hgd], by rw [hgd], by rw [hgd], by simp [hgd], ?_, by simp⟩
  rcases hdate with rfl | ⟨d, rfl⟩ <;>
    simp [sync_offline_content, PyVal.isStrOrNone, hgd]

/-- C9 witness: the theorem applied to a collaborator whose single company
is not flagged default. -/
theorem c9_witness :
    (sync_offline_content ⟨[⟨1, false⟩], fun _ _ => "null", fun _ _ => "a"⟩
        initSession [] "20251012" "2025-10-12" (.str "/a/") (.str "/b/")
        (.int 5) PyVal.none PyVal.none).outcome = some PyErr.typeError ∧
    (get_default_comp ⟨[⟨1, false⟩], fun _ _ => "null", fun _ _ => "a"⟩
        initSession).1 = Option.none := by
  have h := c9_no_default_company ⟨[⟨1, false⟩], fun _ _ => "null", fun _ _ => "a"⟩
    initSession [] "20251012" "2025-10-12" "/a/" "/b/" (.int 5) PyVal.none PyVal.none
    rfl (by intro c hc; simp at hc; rw [hc]) (Or.inl rfl)
  exact ⟨h.2.2.2.2.1, h.1⟩

/-- The session returned by `_get_default_comp` is either untouched or the
input session with the default-company cache newly populated by a flagged
default company. -/
theorem get_default_comp_sess (env : Collab) (s : Session) :
    (get_default_comp env s).2.1 = s ∨
    (s.default_comp = Option.none ∧ ∃ c, c ∈ env.companies ∧ c.isDefault = true ∧
      (get_default_comp env s).2.1 = { s with default_comp := some c }) := by
  rw [get_default_comp]
  cases hdc : s.default_comp with
  | some c => exact Or.inl rfl
  | none =>
      cases hf : env.companies.find? (fun c => c.isDefault) with
      | some c =>
          refine Or.inr ⟨rfl, c, List.mem_of_find?_eq_some hf, ?_, rfl⟩
          have := List.find?_some hf
          simpa using this
      | none => exact Or.inl rfl

/-- Whatever happens inside `sync_offline_content`, the session it hands
back is the input session or the session `_get_default_comp` produced. -/
theorem sync_sess_cases (env : Collab) (s : Session) (disk : Disk)
    (todayTag todayDash : String) (content_dir zip_dir loc_id company_id date : PyVal) :
    (sync_offline_content env s disk todayTag todayDash
        content_dir zip_dir loc_id company_id date).sess = s ∨
    (sync_offline_content env s disk todayTag todayDash
        content_dir zip_dir loc_id company_id date).sess =
      (get_default_comp env s).2.1 := by
  rw [sync_offline_content.eq_def]
  repeat' split
  all_goals first
    | exact Or.inl rfl
    | simp_all

/-- C3 (corrected): `sync_offline_content` never mutates the in-memory
tax-content cache or the ZIP-rate cache, whatever the outcome; but the
lazily-populated default-company cache is not preserved in general — a run
reaching the company-resolution step with an empty cache populates it with
the collaborator's flagged default company, even when the sync later
fails. -/
theorem c3_sync_session_frame (env : Collab) (s : Session) (disk : Disk)
    (todayTag todayDash : String) (content_dir zip_dir loc_id company_id date : PyVal) :
    (sync_offline_content env s disk todayTag todayDash
        content_dir zip_dir loc_id company_id date).sess.content_cache =
      s.content_cache ∧
    (sync_offline_content env s disk todayTag todayDash
        content_dir zip_dir loc_id company_id date).sess.ziprates_cache =
      s.ziprates_cache ∧
    ((sync_offline_content env s disk todayTag todayDash
        content_dir zip_dir loc_id company_id date).sess.default_comp =
        s.default_comp ∨
      (s.default_comp = Option.none ∧
        ∃ c, c ∈ env.companies ∧ c.isDefault = true ∧
          (sync_offline_content env s disk todayTag todayDash
              content_dir zip_dir loc_id company_id date).sess.default_comp =
            some c)) := by
  rcases sync_sess_cases env s disk todayTag todayDash
      content_dir zip_dir loc_id company_id date with hs | hs
  · rw [hs]
    exact ⟨rfl, rfl, Or.inl rfl⟩
  · rcases get_default_comp_sess env s with hg | ⟨hnone, c, hmem, hdef, hg⟩
    · rw [hs, hg]
      exact ⟨rfl, rfl, Or.inl rfl⟩
    · rw [hs, hg]
      exact ⟨rfl, rfl, Or.inr ⟨hnone, c, hmem, hdef, rfl⟩⟩

/-- C3 counterexample: a sync run against a collaborator with a flagged
default company, starting from a fresh session, changes the session's
default-company cache from `None` to that company — the claim that no
session cache field is mutated fails. -/
theorem c3_counterexample :
    (sync_offline_content ⟨[⟨7, true⟩], fun _ _ => "null", fun _ _ => "x"⟩
        initSession [] "20251012" "2025-10-12" (.str "/a/") (.str "/b/")
        (.int 5) PyVal.none PyVal.none).sess.default_comp = some ⟨7, true⟩ ∧
    initSession.default_comp = Option.none :=
  ⟨rfl, rfl⟩

/-- Reading back the file just written yields the written contents. -/
theorem diskRead_diskWrite_self (d : Disk) (p v : String) :
    diskRead (diskWrite d p v) p = some v := by
  rw [diskWrite]
  by_cases h : d.any (fun kv => kv.1 = p) = true
  · rw [if_pos h]
    induction d with
    | nil => simp at h
    | cons a rest ih =>
        simp only [List.any_cons, Bool.or_eq_true, decide_eq_true_eq] at h
        simp only [List.map_cons]
        by_cases ha : a.1 = p
        · rw [if_pos ha]
          rw [diskRead, List.lookup_cons]
          simp
        · rw [if_neg ha]
          rw [diskRead, List.lookup_cons]
          have hbeq : (p == a.1) = false := by
            simp only [beq_eq_false_iff_ne, ne_eq]
            exact fun hh => ha hh.symm
          rw [hbeq]
          exact ih (h.resolve_left ha)
  · rw [if_neg h]
    induction d with
    | nil =>
        rw [List.nil_append, diskRead, List.lookup_cons]
        simp
    | cons a rest ih =>
        simp only [List.any_cons, Bool.or_eq_true, decide_eq_true_eq] at h
        push_neg at h
        rw [List.cons_append, diskRead, List.lookup_cons]
        have hbeq : (p == a.1) = false := by
          simp only [beq_eq_false_iff_ne, ne_eq]
          exact fun hh => h.1 hh.symm
        rw [hbeq]
        exact ih h.2

/-- Writing one file leaves every other path's contents unchanged. -/
theorem diskRead_diskWrite_other (d : Disk) (p q v : String) (hne : q ≠ p) :
    diskRead (diskWrite d p v) q = diskRead d q := by
  rw [diskWrite]
  by_cases h : d.any (fun kv => kv.1 = p) = true
  · rw [if_pos h]
    clear h
    induction d with
    | nil => simp [diskRead]
    | cons a rest ih =>
        simp only [List.map_cons]
        by_cases ha : a.1 = p
        · rw [if_pos ha]
          rw [diskRead, diskRead, List.lookup_cons, List.lookup_cons]
          have h1 : (q == p) = false := by
            simp only [beq_eq_false_iff_ne, ne_eq]
            exact hne
          have h2 : (q == a.1) = false := by
            simp only [beq_eq_false_iff_ne, ne_eq]
            rw [ha]
            exact hne
          rw [h1, h2]
          exact ih
        · rw [if_neg ha]
          rw [diskRead, diskRead, List.lookup_cons, List.lookup_cons]
          cases hbeq : (q == a.1) with
          | true => rfl
          | false => exact ih
  · rw [if_neg h]
    clear h
    induction d with
    | nil =>
        rw [diskRead, List.nil_append, List.lookup_cons]
        have hbeq : (q == p) = false := by
          simp only [beq_eq_false_iff_ne, ne_eq]
          exact hne
        rw [hbeq]
        rfl
    | cons a rest ih =>
        rw [diskRead, List.cons_append, List.lookup_cons]
        rw [diskRead] at ih
        conv_rhs => rw [diskRead, List.lookup_cons]
        cases hbeq : (q == a.1) with
        | true => rfl
        | false => exact ih

/-- A row set containing an empty row makes `_zipct_helper` raise
(`pop(0)` on the empty list), whatever came before. -/
theorem zipct_helper_empty_row (rows : List (List String)) (h : [] ∈ rows) :
    zipct_helper rows = Option.none := by
  rw [zipct_helper]
  suffices hgen : ∀ d0, zipctGo rows d0 = Option.none from hgen []
  induction rows with
  | nil => simp at h
  | cons r more ih =>
      intro d0
      cases r with
      | nil => rfl
      | cons c t =>
          rcases List.mem_cons.mp h with hh | hh
          · cases hh
          · exact ih hh (pyDictSet d0 c t)

/-- C10 (confirmed): a downloaded CSV payload with a blank line among at
least 100 lines passes the length gate on the first attempt, but the
blank line's empty row makes `_zipct_helper` raise an unhandled
`IndexError` — the row is neither skipped nor turned into a taxonomy
error — and `sync_offline_content` aborts after the content file has
already been written to disk. -/
theorem c10_blank_csv_line (env : Collab) (s : Session) (disk : Disk)
    (todayTag todayDash cd zd date0 : String) (lid cid : PyVal)
    (comp : Company) (s1 : Session) (b : Bool) (doc : Json)
    (hgd : get_default_comp env s = (some comp, s1, b))
    (hjson : json_loads (env.build_tax_content comp.id lid) = some doc)
    (hlong : 100 ≤ (pyCsvRows (env.download_zip date0 0)).length)
    (hblank : [] ∈ pyCsvRows (env.download_zip date0 0)) :
    (∀ rows, [] ∈ rows → zipct_helper rows = Option.none) ∧
    (sync_offline_content env s disk todayTag todayDash
        (.str cd) (.str zd) lid cid (.str date0)).outcome =
      some (PyErr.indexError "pop from empty list") ∧
    (∀ p, path_joiner s1.linux todayTag (.str cd) "retailTaxContent.json" lid =
        .ok p →
      diskRead (sync_offline_content env s disk todayTag todayDash
          (.str cd) (.str zd) lid cid (.str date0)).disk p = some (json_dumps doc)) := by
  have hloop : zipLoop (env.download_zip date0) =
      (some (pyCsvRows (env.download_zip date0 0)), 1) :=
    zipLoopAux_success (env.download_zip date0) 10 0 [] (by simp) 0
      (Nat.le_refl 0) (by omega) (fun k hk1 hk2 => by omega) hlong
  obtain ⟨cpath, hcp⟩ : ∃ p,
      path_joiner s1.linux todayTag (.str cd) "retailTaxContent.json" lid = .ok p := by
    rw [path_joiner]
    exact ⟨_, rfl⟩
  have hzc : zipct_helper (pyCsvRows (env.download_zip date0 0)) = Option.none :=
    zipct_helper_empty_row _ hblank
  have hrun : sync_offline_content env s disk todayTag todayDash
      (.str cd) (.str zd) lid cid (.str date0) =
      ⟨some (PyErr.indexError "pop from empty list"), s1,
        diskWrite disk cpath (json_dumps doc), 1⟩ := by
    rw [sync_offline_content.eq_def]
    simp only [PyVal.isStrOrNone, Bool.and_self, not_true_eq_false, if_false,
      Bool.not_true, hgd, hjson, hcp, hloop, hzc]
  refine ⟨fun rows hr => zipct_helper_empty_row rows hr, ?_, ?_⟩
  · rw [hrun]
  · intro p hp
    rw [hcp, Except.ok.injEq] at hp
    rw [hrun, ← hp]
    exact diskRead_diskWrite_self disk cpath (json_dumps doc)

/-- A downloaded CSV body of 101 lines with a blank line in the middle. -/
def blankCsvBody : String :=
  String.intercalate "\n"
    (List.replicate 50 "98101,0.1" ++ [""] ++ List.replicate 50 "98102,0.2")

/-- A collaborator whose ZIP-rate download always returns the blank-line
payload. -/
def blankCsvEnv : Collab :=
  ⟨[⟨7, true⟩], fun _ _ => "null", fun _ _ => blankCsvBody⟩

set_option maxRecDepth 8000 in
/-- C10 witness: the theorem applied to the blank-line payload: sync aborts
with the `IndexError` and the content file is already on disk. -/
theorem c10_witness :
    (sync_offline_content blankCsvEnv initSession [] "20251012" "2025-10-12"
        (.str "/a/") (.str "/b/") (.int 5) PyVal.none (.str "2025-10-12")).outcome =
      some (PyErr.indexError "pop from empty list") ∧
    diskRead (sync_offline_content blankCsvEnv initSession [] "20251012" "2025-10-12"
        (.str "/a/") (.str "/b/") (.int 5) PyVal.none (.str "2025-10-12")).disk
      "/a/5_retailTaxContent.json" = some (json_dumps Json.null) := by
  have h := c10_blank_csv_line blankCsvEnv initSession [] "20251012" "2025-10-12"
    "/a/" "/b/" "2025-10-12" (.int 5) PyVal.none ⟨7, true⟩
    { initSession with default_comp := some ⟨7, true⟩ } true Json.null
    rfl rfl (by decide) (by decide)
  exact ⟨h.2.1, h.2.2 "/a/5_retailTaxContent.json" rfl⟩

/-- C4 counterexample: on an empty directory `with_zipcode_tax_content`
(the session-scoped variant the claim cites) swallows the resolver's
`ImportError`, binds the directory, and returns normally — it does not fail
with the `NotFound` error of the taxonomy. -/
theorem c4_counterexample :
    (with_zipcode_tax_content initSession [] (.str "/z")).outcome = Option.none ∧
    (Option.none : Option PyErr) ≠ some (PyErr.indexError
      "No content cache file found, call sync_offline_content method to cache a files from AvaTax") :=
  ⟨rfl, by decide⟩

/-- C4 (corrected): on a directory with no matching cache file,
`with_retail_tax_content` fails with the `NotFound` `IndexError` and leaves
the session untouched, while `with_zipcode_tax_content` (session-scoped
variant) binds the directory and returns normally without raising; neither
operation modifies the corresponding session content cache. -/
theorem c4_missing_cache_files (s : Session) (disk : Disk) (cd zd : String) (n : Int)
    (hcontent : diskRead disk (cd ++ pyIntStr n ++ "_retailTaxContent.json") =
      Option.none)
    (hzip : pyGlob disk zd = []) :
    (with_retail_tax_content s disk (.str cd) (.int n)).outcome =
      some (.indexError
        "No content cache file found, call sync_offline_content method to cache files from AvaTax") ∧
    (with_retail_tax_content s disk (.str cd) (.int n)).sess = s ∧
    (with_zipcode_tax_content s disk (.str zd)).outcome = Option.none ∧
    (with_zipcode_tax_content s disk (.str zd)).sess =
      { s with zip_dir_f := some zd } := by
  refine ⟨?_, ?_, ?_, ?_⟩
  · simp only [with_retail_tax_content, hcontent]
  · simp only [with_retail_tax_content, hcontent]
  · simp only [with_zipcode_tax_content, hzip]
    rfl
  · simp only [with_zipcode_tax_content, hzip]
    rfl

/-- C4 witness: the amended theorem applied to the empty disk. -/
theorem c4_witness :
    (with_retail_tax_content initSession [] (.str "/a/") (.int 5)).outcome =
      some (.indexError
        "No content cache file found, call sync_offline_content method to cache files from AvaTax") ∧
    (with_zipcode_tax_content initSession [] (.str "/z")).sess =
      { initSession with zip_dir_f := some "/z" } := by
  have h := c4_missing_cache_files initSession [] "/a/" "/z" 5 rfl rfl
  exact ⟨h.1, h.2.2.2⟩

/-- Joining a directory with a filename keeps the filename's suffix. -/
theorem strEndsWith_pyOsJoin (p a suf : String) :
    strEndsWith (pyOsJoin p (a ++ suf)) suf = true := by
  rw [pyOsJoin]
  split
  · exact strEndsWith_append a suf
  · split
    · rw [← String.append_assoc]
      exact strEndsWith_append (p ++ a) suf
    · rw [← String.append_assoc]
      exact strEndsWith_append ((p ++ "/") ++ a) suf

/-- A `..._zipRates.json` path and a `..._retailTaxContent.json` path are
never the same file. -/
theorem zip_path_ne_content_path (x y : String)
    (hx : strEndsWith x "_zipRates.json" = true)
    (hy : strEndsWith y "_retailTaxContent.json" = true) : x ≠ y := by
  intro h
  subst h
  rw [strEndsWith] at hx hy
  have h1 : "_zipRates.json".toList <:+ x.toList := by
    have := hx
    simpa using this
  have h2 : "_retailTaxContent.json".toList <:+ x.toList := by
    have := hy
    simpa using this
  have h3 := List.suffix_of_suffix_length_le h1 h2 (by decide)
  exact absurd h3 (by decide)

/-- The entity-id content path of `_path_joiner` over a directory ending in
the separator is exactly the plain concatenation that
`with_retail_tax_content` later reads. -/
theorem path_joiner_content_eq_concat (todayTag cd : String) (n : Int)
    (hcd : strEndsWith cd "/" = true) (hn : n ≠ 0) :
    path_joiner true todayTag (.str cd) "retailTaxContent.json" (.int n) =
      .ok (cd ++ pyIntStr n ++ "_retailTaxContent.json") := by
  have ht : (PyVal.int n).truthy = true := by simp [PyVal.truthy, hn]
  rw [path_joiner]
  simp only [ht, if_true, PyVal.pystr]
  rw [pyOsJoin, pyIntStr_mid_startsWith_slash n "_" "retailTaxContent.json"]
  simp only [Bool.false_eq_true, if_false]
  rw [if_pos (by simp [hcd])]
  have hlit : ("_" : String) ++ "retailTaxContent.json" = "_retailTaxContent.json" := rfl
  rw [String.append_assoc (pyIntStr n) "_" "retailTaxContent.json", hlit,
    ← String.append_assoc]

/-- C2 (corrected): after a successful `sync_offline_content` run on a POSIX
platform with a content directory ending in the path separator and a nonzero
integer location id, the entity-id form of `_path_joiner` equals the plain
concatenation `content_dir + str(loc_id) + '_retailTaxContent.json'` that
`with_retail_tax_content` reads, and loading stores in the session's content
cache exactly the JSON document the collaborator returned for that location
(the disk round trip is lossless).  The original claim, over every valid
directory, fails when the directory lacks the trailing separator: the two
operations then compute different paths (see the counterexample). -/
theorem c2_sync_then_load (env : Collab) (s : Session) (disk : Disk)
    (todayTag todayDash cd zd date0 : String) (n : Int) (cid : PyVal) (doc : Json)
    (hlinux : s.linux = true)
    (hcd : strEndsWith cd "/" = true)
    (hn : n ≠ 0)
    (hresp : ∀ c : Int, json_loads (env.build_tax_content c (.int n)) = some doc)
    (hrun : (sync_offline_content env s disk todayTag todayDash
        (.str cd) (.str zd) (.int n) cid (.str date0)).outcome = Option.none) :
    path_joiner s.linux todayTag (.str cd) "retailTaxContent.json" (.int n) =
      .ok (cd ++ pyIntStr n ++ "_retailTaxContent.json") ∧
    (with_retail_tax_content
        (sync_offline_content env s disk todayTag todayDash
          (.str cd) (.str zd) (.int n) cid (.str date0)).sess
        (sync_offline_content env s disk todayTag todayDash
          (.str cd) (.str zd) (.int n) cid (.str date0)).disk
        (.str cd) (.int n)).outcome = Option.none ∧
    (with_retail_tax_content
        (sync_offline_content env s disk todayTag todayDash
          (.str cd) (.str zd) (.int n) cid (.str date0)).sess
        (sync_offline_content env s disk todayTag todayDash
          (.str cd) (.str zd) (.int n) cid (.str date0)).disk
        (.str cd) (.int n)).sess.content_cache = some doc := by
  rcases hgd : get_default_comp env s with ⟨oc, s1, b⟩
  have hs1linux : s1.linux = true := by
    have h := get_default_comp_sess env s
    rw [hgd] at h
    rcases h with h | ⟨-, c, -, -, h⟩
    · have h2 : s1 = s := h
      rw [h2]
      exact hlinux
    · have h2 : s1 = { s with default_comp := some c } := h
      rw [h2]
      exact hlinux
  have hpart1 : path_joiner s.linux todayTag (.str cd) "retailTaxContent.json"
      (.int n) = .ok (cd ++ pyIntStr n ++ "_retailTaxContent.json") := by
    rw [hlinux]
    exact path_joiner_content_eq_concat todayTag cd n hcd hn
  cases oc with
  | none =>
      exfalso
      simp [sync_offline_content.eq_def, hgd, PyVal.isStrOrNone] at hrun
  | some comp =>
      have hjs := hresp comp.id
      have hcp : path_joiner s1.linux todayTag (.str cd)
              "retailTaxContent.json" (.int n) =
              .ok (cd ++ pyIntStr n ++ "_retailTaxContent.json") := by
            rw [hs1linux]
            exact path_joiner_content_eq_concat todayTag cd n hcd hn
      rcases hzl : zipLoop (env.download_zip date0) with ⟨ozl, nn⟩
      cases ozl with
      | none =>
          exfalso
          simp [sync_offline_content.eq_def, hgd, hjs, hcp, hzl,
            PyVal.isStrOrNone] at hrun
      | some rows =>
          cases hzc : zipct_helper rows with
          | none =>
              exfalso
              simp [sync_offline_content.eq_def, hgd, hjs, hcp, hzl, hzc,
                PyVal.isStrOrNone] at hrun
          | some zdict =>
              have hzp : path_joiner s1.linux todayTag (.str zd)
                  "zipRates.json" PyVal.none =
                  .ok (pyOsJoin zd (todayTag ++ "_" ++ "zipRates.json")) := by
                rw [path_joiner]
                simp [PyVal.truthy, hs1linux]
              have hsync : sync_offline_content env s disk todayTag todayDash
                  (.str cd) (.str zd) (.int n) cid (.str date0) =
                  ⟨Option.none, s1,
                    diskWrite
                      (diskWrite disk
                        (cd ++ pyIntStr n ++ "_retailTaxContent.json")
                        (json_dumps doc))
                      (pyOsJoin zd (todayTag ++ "_" ++ "zipRates.json"))
                      (json_dumps (zipJson zdict)), nn⟩ := by
                rw [sync_offline_content.eq_def]
                simp only [PyVal.isStrOrNone, Bool.and_self,
                  not_true_eq_false, if_false, hgd, hjs, hcp, hzl, hzc, hzp]
              have hne : pyOsJoin zd (todayTag ++ "_" ++ "zipRates.json") ≠
                  cd ++ pyIntStr n ++ "_retailTaxContent.json" := by
                apply zip_path_ne_content_path
                · rw [show todayTag ++ "_" ++ "zipRates.json" =
                      todayTag ++ "_zipRates.json" from by
                    rw [String.append_assoc]
                    exact rfl]
                  exact strEndsWith_pyOsJoin zd todayTag "_zipRates.json"
                · exact strEndsWith_append (cd ++ pyIntStr n) "_retailTaxContent.json"
              have hread : diskRead
                  (diskWrite
                    (diskWrite disk
                      (cd ++ pyIntStr n ++ "_retailTaxContent.json")
                      (json_dumps doc))
                    (pyOsJoin zd (todayTag ++ "_" ++ "zipRates.json"))
                    (json_dumps (zipJson zdict)))
                  (cd ++ pyIntStr n ++ "_retailTaxContent.json") =
                  some (json_dumps doc) := by
                rw [diskRead_diskWrite_other _ _ _ _ (fun h => hne h.symm)]
                exact diskRead_diskWrite_self _ _ _
              refine ⟨hpart1, ?_, ?_⟩
              · rw [hsync]
                simp only [with_retail_tax_content, hread, json_loads_dumps]
              · rw [hsync]
                simp only [with_retail_tax_content, hread, json_loads_dumps]

/-- A healthy ZIP-rate payload: 100 identical one-row lines. -/
def goodCsvBody : String :=
  String.intercalate "\n" (List.replicate 100 "98101,0.1")

/-- A collaborator that returns `null` tax content and the healthy ZIP-rate
payload. -/
def goodCsvEnv : Collab :=
  ⟨[⟨7, true⟩], fun _ _ => "null", fun _ _ => goodCsvBody⟩

set_option maxRecDepth 8000 in
/-- C2 counterexample: with the valid content directory `"/a"` (no trailing
separator) the sync run succeeds and writes via `os.path.join`, but
`with_retail_tax_content` reads the plain concatenation — a different path —
so the load fails with the `NotFound` error and caches nothing: the two
operations do not compute the same file path for every valid directory. -/
theorem c2_counterexample :
    (sync_offline_content goodCsvEnv initSession [] "20251012" "2025-10-12"
        (.str "/a") (.str "/b") (.int 5) PyVal.none (.str "2025-10-12")).outcome =
      Option.none ∧
    path_joiner true "20251012" (.str "/a") "retailTaxContent.json" (.int 5) =
      .ok "/a/5_retailTaxContent.json" ∧
    "/a" ++ pyIntStr 5 ++ "_retailTaxContent.json" = "/a5_retailTaxContent.json" ∧
    "/a/5_retailTaxContent.json" ≠ "/a5_retailTaxContent.json" ∧
    (with_retail_tax_content
        (sync_offline_content goodCsvEnv initSession [] "20251012" "2025-10-12"
          (.str "/a") (.str "/b") (.int 5) PyVal.none (.str "2025-10-12")).sess
        (sync_offline_content goodCsvEnv initSession [] "20251012" "2025-10-12"
          (.str "/a") (.str "/b") (.int 5) PyVal.none (.str "2025-10-12")).disk
        (.str "/a") (.int 5)).outcome =
      some (.indexError
        "No content cache file found, call sync_offline_content method to cache files from AvaTax") ∧
    (with_retail_tax_content
        (sync_offline_content goodCsvEnv initSession [] "20251012" "2025-10-12"
          (.str "/a") (.str "/b") (.int 5) PyVal.none (.str "2025-10-12")).sess
        (sync_offline_content goodCsvEnv initSession [] "20251012" "2025-10-12"
          (.str "/a") (.str "/b") (.int 5) PyVal.none (.str "2025-10-12")).disk
        (.str "/a") (.int 5)).sess.content_cache = Option.none :=
  ⟨rfl, rfl, rfl, by decide, rfl, rfl⟩

set_option maxRecDepth 8000 in
/-- C2 witness: the amended theorem applied with the trailing-separator
directory `"/a/"`: after the successful sync, the load stores exactly the
collaborator's document in the content cache. -/
theorem c2_witness :
    (with_retail_tax_content
        (sync_offline_content goodCsvEnv initSession [] "20251012" "2025-10-12"
          (.str "/a/") (.str "/b/") (.int 5) PyVal.none (.str "2025-10-12")).sess
        (sync_offline_content goodCsvEnv initSession [] "20251012" "2025-10-12"
          (.str "/a/") (.str "/b/") (.int 5) PyVal.none (.str "2025-10-12")).disk
        (.str "/a/") (.int 5)).outcome = Option.none ∧
    (with_retail_tax_content
        (sync_offline_content goodCsvEnv initSession [] "20251012" "2025-10-12"
          (.str "/a/") (.str "/b/") (.int 5) PyVal.none (.str "2025-10-12")).sess
        (sync_offline_content goodCsvEnv initSession [] "20251012" "2025-10-12"
          (.str "/a/") (.str "/b/") (.int 5) PyVal.none (.str "2025-10-12")).disk
        (.str "/a/") (.int 5)).sess.content_cache = some Json.null := by
  have h := c2_sync_then_load goodCsvEnv initSession [] "20251012" "2025-10-12"
    "/a/" "/b/" "2025-10-12" 5 PyVal.none Json.null rfl (by decide) (by decide)
    (fun c => rfl) rfl
  exact ⟨h.2.1, h.2.2⟩

end Avatax
